import Mathlib

/-!
Verification development for the citizens-assemblies replication code
(src/legacy.py, src/analysis.py, src/xmin.py).

Shallow embedding conventions:
* Python ints are `ℤ` (or `ℕ` for counts/indices), Python floats are `ℚ`
  (the algorithms only add, multiply, divide and compare; no rounding
  behaviour of binary floats is relied upon by the claims checked here).
* Python dicts are association lists (`List (key × value)`) preserving
  insertion order, or `Finset`/functions when only membership matters.
* Python exceptions are modelled by `Except PyErr`; `assert` statements
  become explicit checks raising `PyErr.assertionFailed`.
* The external LP/IP solvers (python-mip and gurobipy) are modelled as
  oracles: functions handed to the embedded algorithms that return the
  solver status and the value assignment the code reads off the solved
  model.  The embedded code only uses them exactly where the Python code
  calls `optimize()` and reads variables/objective values.
* `random.randint` is an oracle `ℕ → ℤ → ℤ → ℤ` applied to a running
  call counter and the bounds the code passes.
-/

/-- Numerical tolerance EPS = 0.0005 from src/xmin.py. -/
def EPS : ℚ := 5 / 10000

/-- One entry of the per-feature-value quota dictionary: the Python dict
with keys "min", "max", "selected", "remaining" (src/analysis.py
read_instance builds it; src/legacy.py mutates selected/remaining). -/
structure FeatureInfo where
  min : ℤ
  max : ℤ
  selected : ℤ
  remaining : ℤ
deriving DecidableEq, Repr

instance : Inhabited FeatureInfo := ⟨⟨0, 0, 0, 0⟩⟩

/-- The `categories` nested dict: category name → feature value name →
quota info, as an insertion-ordered association list. -/
abbrev Categories : Type := List (String × List (String × FeatureInfo))

/-- A pool member record: category name → feature value (ordered dict). -/
abbrev PersonRec : Type := List (String × String)

/-- The `people` dict: agent id → person record. Agent ids are the
integers assigned by src/analysis.py read_instance. -/
abbrev People : Type := List (ℕ × PersonRec)

/-- Solver status codes mirroring mip.OptimizationStatus. -/
inductive OptimizationStatus where
  | OPTIMAL
  | INFEASIBLE
  | UNBOUNDED
  | FEASIBLE
  | INT_INFEASIBLE
  | NO_SOLUTION_FOUND
  | LOADED
  | CUTOFF
  | ERROR
deriving DecidableEq, Repr

/-- Payloads of the SelectionError messages raised by the code; each
constructor corresponds to one raise site and carries the data
interpolated into the message string. -/
inductive SelMsg where
  | deleteAllNotEnough (pval : String)
  | deletePersonNoneLeft (pval : String)
  | findMaxNotEnough (cat : String)
  | findMaxRatioGtOne
  | runOutOfPeople
  | noFeasibleCommittees (status : OptimizationStatus)
deriving DecidableEq, Repr

/-- Entries of `output_lines`; each constructor corresponds to one
formatted log string of the source and carries the interpolated data. -/
inductive LogEntry where
  | usingLegacy
  | usingLeximin
  | foundSameAddress (address1 address2 : String)
  | categoryFull (pval : String) (numDeleted numLeft : ℕ)
  | failedMinimum (cat : String)
  | maximin (atMost canDo : ℚ) (numCommittees : ℕ) (gap : ℚ)
  | agentNotContained (id : ℕ)
  | allAgentsContained
  | recommendLower (feature value : String) (newQuota : ℤ)
  | recommendRaise (feature value : String) (newQuota : ℤ)
deriving DecidableEq, Repr

/-- Python exceptions observable from the embedded code. `fuelExhausted`
models non-termination of an unbounded `while` loop (the embeddings are
fuelled). `gurobiError` models reading `.x` from an unsolved model. -/
inductive PyErr where
  | selectionError (msg : SelMsg)
  | infeasibleQuotas (quotas : List ((String × String) × (ℤ × ℤ))) (notes : List LogEntry)
  | assertionFailed
  | keyError
  | indexError
  | gurobiError
  | fuelExhausted
deriving DecidableEq, Repr

/-- `categories[f][v]` as an optional lookup (Python raises KeyError when
missing; the surrounding code threads that through `Except`). -/
def lookupFV (cats : Categories) (f v : String) : Option FeatureInfo :=
  match List.lookup f cats with
  | none => none
  | some vs => List.lookup v vs

/-- In-place mutation `categories[f][v] = g(categories[f][v])`. The dicts
have unique keys, so mapping over the association list is faithful. -/
def updateFV (cats : Categories) (f v : String) (g : FeatureInfo → FeatureInfo) : Categories :=
  cats.map (fun c => if c.1 = f then (c.1, c.2.map (fun w => if w.1 = v then (w.1, g w.2) else w)) else c)

/-- `person[cat]` lookup on a person record. -/
def lookupStr (rec : PersonRec) (key : String) : Option String :=
  List.lookup key rec

/-- `people[pkey]` lookup. -/
def lookupPerson (people : People) (pkey : ℕ) : Option PersonRec :=
  List.lookup pkey people

/-!  ### src/legacy.py  -/

/-- The counter update applied to each feature value of a deleted person
in really_delete_person: `selected += 1` (only when the person was
selected) and `remaining -= 1`. -/
def bumpCatItem (selectedFlag : Bool) (it : FeatureInfo) : FeatureInfo :=
  { it with
    selected := if selectedFlag then it.selected + 1 else it.selected
    remaining := it.remaining - 1 }

/-- delete_all_in_cat: delete every remaining person holding the given
feature value, decrementing the `remaining` counter of each of their
feature values and failing when a counter hits 0 with `selected < min`.
Returns the updated state plus (number deleted, number left). -/
def delete_all_in_cat (categories : Categories) (people : People) (cat cat_value : String) :
    Except PyErr (Categories × People × ℕ × ℕ) := do
  let (cats2, people_to_delete) ← people.foldlM
    (fun (acc : Categories × List ℕ) entry => do
      match lookupStr entry.2 cat with
      | none => Except.error PyErr.keyError
      | some pv =>
        if pv = cat_value then do
          let cs2 ← entry.2.foldlM
            (fun cs3 (pcv : String × String) =>
              match lookupFV cs3 pcv.1 pcv.2 with
              | none => Except.error PyErr.keyError
              | some it =>
                let it2 : FeatureInfo := { it with remaining := it.remaining - 1 }
                if it2.remaining = 0 ∧ it2.selected < it2.min then
                  Except.error (PyErr.selectionError (SelMsg.deleteAllNotEnough pcv.2))
                else
                  Except.ok (updateFV cs3 pcv.1 pcv.2 (fun w => { w with remaining := w.remaining - 1 })))
            acc.1
          Except.ok (cs2, acc.2 ++ [entry.1])
        else
          Except.ok acc)
    (categories, [])
  let people2 := people.filter (fun e => e.1 ∉ people_to_delete)
  Except.ok (cats2, people2, people_to_delete.length, people2.length)

/-- really_delete_person: update the counters for every feature value of
the person (selected flag distinguishes chosen vs same-address deletion)
and remove the person from the pool. -/
def really_delete_person (categories : Categories) (people : People) (pkey : ℕ)
    (selectedFlag : Bool) : Except PyErr (Categories × People) := do
  match lookupPerson people pkey with
  | none => Except.error PyErr.keyError
  | some person => do
    let cats2 ← person.foldlM
      (fun cs (pcv : String × String) =>
        match lookupFV cs pcv.1 pcv.2 with
        | none => Except.error PyErr.keyError
        | some it =>
          let it2 := bumpCatItem selectedFlag it
          if it2.remaining = 0 ∧ it2.selected < it2.min then
            Except.error (PyErr.selectionError (SelMsg.deletePersonNoneLeft pcv.2))
          else
            Except.ok (updateFV cs pcv.1 pcv.2 (bumpCatItem selectedFlag)))
      categories
    Except.ok (cats2, people.filter (fun e => e.1 ≠ pkey))

/-- get_people_at_same_address: collect the keys of remaining people whose
two address columns match those of `pkey`, with a log line for each. -/
def get_people_at_same_address (people : People) (pkey : ℕ)
    (columns_data : List (ℕ × PersonRec)) (check_same_address_columns : List String) :
    Except PyErr (List ℕ × List LogEntry) := do
  match check_same_address_columns with
  | c0 :: c1 :: _ =>
    match List.lookup pkey columns_data with
    | none => Except.error PyErr.keyError
    | some row =>
      match lookupStr row c0, lookupStr row c1 with
      | some primary_address1, some primary_zip =>
        people.foldlM
          (fun (acc : List ℕ × List LogEntry) entry => do
            match List.lookup entry.1 columns_data with
            | none => Except.error PyErr.keyError
            | some row2 =>
              match lookupStr row2 c0, lookupStr row2 c1 with
              | some a2, some z2 =>
                if primary_address1 = a2 ∧ primary_zip = z2 then
                  Except.ok (acc.1 ++ [entry.1],
                             acc.2 ++ [LogEntry.foundSameAddress primary_address1 primary_zip])
                else
                  Except.ok acc
              | _, _ => Except.error PyErr.keyError)
          ([], [])
      | _, _ => Except.error PyErr.keyError
  | _ => Except.error PyErr.indexError

/-- delete_person: the chosen person is deleted (updating counters), then
people at the same address when household mode is on, then every feature
value of the chosen person that reached its `max` quota has all its
remaining holders deleted. -/
def delete_person (categories : Categories) (people : People) (pkey : ℕ)
    (columns_data : List (ℕ × PersonRec)) (check_same_address : Bool)
    (check_same_address_columns : List String) :
    Except PyErr (Categories × People × List LogEntry) := do
  match lookupPerson people pkey with
  | none => Except.error PyErr.keyError
  | some person => do
    let (cats1, people1) ← really_delete_person categories people pkey true
    let (cats2, people2, output_lines) ←
      if check_same_address then do
        let (people_to_delete, lines) ←
          get_people_at_same_address people1 pkey columns_data check_same_address_columns
        let (cs, ps) ← people_to_delete.foldlM
          (fun (st : Categories × People) delKey =>
            really_delete_person st.1 st.2 delKey false)
          (cats1, people1)
        Except.ok (cs, ps, lines)
      else
        Except.ok (cats1, people1, ([] : List LogEntry))
    let (cats3, people3, lines3) ← person.foldlM
      (fun (st : Categories × People × List LogEntry) (pcv : String × String) => do
        match lookupFV st.1 pcv.1 pcv.2 with
        | none => Except.error PyErr.keyError
        | some it =>
          if it.selected = it.max then do
            let (cs2, ps2, numDeleted, numLeft) ← delete_all_in_cat st.1 st.2.1 pcv.1 pcv.2
            Except.ok (cs2, ps2, st.2.2 ++ [LogEntry.categoryFull pcv.2 numDeleted numLeft])
          else
            Except.ok st)
      (cats2, people2, output_lines)
    Except.ok (cats3, people3, lines3)

/-- The result dict of find_max_ratio_cat. -/
structure RatioResult where
  ratio_cat : String
  ratio_cat_val : String
  ratio_random : ℤ
deriving DecidableEq, Repr

/-- The mutable state of find_max_ratio_cat's scan, plus the rng call
counter. -/
structure MaxRatioState where
  ratioAcc : ℚ
  key_max : String
  index_max_name : String
  random_person_num : ℤ
  rngCtr : ℕ
deriving DecidableEq, Repr

/-- One loop-body step of find_max_ratio_cat for the feature value
`(category key, value key, quota info)`. -/
def fmrcStep (randint : ℕ → ℤ → ℤ → ℤ) (st : MaxRatioState)
    (e : String × String × FeatureInfo) : Except (PyErr × ℕ) MaxRatioState :=
  let cat_item := e.2.2
  if cat_item.selected < cat_item.min ∧ cat_item.remaining < cat_item.min - cat_item.selected then
    Except.error (PyErr.selectionError (SelMsg.findMaxNotEnough e.2.1), st.rngCtr)
  else if cat_item.remaining ≠ 0 ∧ cat_item.max ≠ 0 then
    let ratioItem : ℚ := ((cat_item.min - cat_item.selected : ℤ) : ℚ) / ((cat_item.remaining : ℤ) : ℚ)
    if 1 < ratioItem then
      Except.error (PyErr.selectionError SelMsg.findMaxRatioGtOne, st.rngCtr)
    else if st.ratioAcc < ratioItem then
      Except.ok ⟨ratioItem, e.1, e.2.1, randint st.rngCtr 1 cat_item.remaining, st.rngCtr + 1⟩
    else
      Except.ok st
  else
    Except.ok st

/-- find_max_ratio_cat: scan all feature values in iteration order,
raising on an unfillable lower quota or a deficit ratio above 1, and
keeping the first feature value attaining the strictly largest ratio
(the accumulator starts at the sentinel -100.0). Errors carry the rng
counter at the raise point. -/
def find_max_ratio_cat (randint : ℕ → ℤ → ℤ → ℤ) (categories : Categories) (ctr0 : ℕ) :
    Except (PyErr × ℕ) (RatioResult × ℕ) := do
  let st ← categories.foldlM
    (fun st c => c.2.foldlM (fun st2 w => fmrcStep randint st2 (c.1, w.1, w.2)) st)
    (⟨-100, "", "", -1, ctr0⟩ : MaxRatioState)
  Except.ok (⟨st.key_max, st.index_max_name, st.random_person_num⟩, st.rngCtr)

/-- check_min_cats: report whether every feature value reached its lower
quota; the message list keeps only the last failing value, as in the
source. -/
def check_min_cats (categories : Categories) : Bool × List LogEntry :=
  categories.foldl
    (fun acc c => c.2.foldl
      (fun acc2 w =>
        if w.2.selected < w.2.min then (false, [LogEntry.failedMinimum w.1]) else acc2)
      acc)
    (true, [])

/-- The scan inside find_random_sample_legacy looking for the person at
which the `ratio_random` countdown hits zero among remaining holders of
the chosen feature value (the loop breaks right after selecting, so
iterating over a snapshot of the pool is faithful). `none` means the
loop completed without selecting anyone. A missing `person[cat]` key
raises (this happens when find_max_ratio_cat returned its sentinel). -/
def find_random_person (cat val : String) (rngCtr : ℕ) :
    ℤ → List (ℕ × PersonRec) → Except (PyErr × ℕ) (Option (ℕ × PersonRec))
  | _, [] => Except.ok none
  | countdown, entry :: rest =>
    match lookupStr entry.2 cat with
    | none => Except.error (PyErr.keyError, rngCtr)
    | some pv =>
      if pv = val then
        if countdown - 1 = 0 then Except.ok (some entry)
        else find_random_person cat val rngCtr (countdown - 1) rest
      else find_random_person cat val rngCtr countdown rest

/-- The full mutable state of one find_random_sample_legacy run. -/
structure LegacyRunState where
  categories : Categories
  people : People
  people_selected : People
  output_lines : List LogEntry
  rngCtr : ℕ
deriving DecidableEq

/-- The body of the `for count in range(number_people_wanted)` loop of
find_random_sample_legacy. -/
def legacySampleStep (randint : ℕ → ℤ → ℤ → ℤ) (columns_data : List (ℕ × PersonRec))
    (number_people_wanted : ℕ) (check_same_address : Bool)
    (check_same_address_columns : List String) (st : LegacyRunState) (count : ℕ) :
    Except (PyErr × ℕ) LegacyRunState := do
  let (r, ctr1) ← find_max_ratio_cat randint st.categories st.rngCtr
  let found ← find_random_person r.ratio_cat r.ratio_cat_val ctr1 r.ratio_random st.people
  let st2 ←
    match found with
    | none => Except.ok { st with rngCtr := ctr1 }
    | some (pkey, pvalue) =>
      match delete_person st.categories st.people pkey columns_data check_same_address
          check_same_address_columns with
      | Except.error e => Except.error (e, ctr1)
      | Except.ok (cats2, people2, lines2) =>
        Except.ok { categories := cats2, people := people2,
                    people_selected := st.people_selected ++ [(pkey, pvalue)],
                    output_lines := st.output_lines ++ lines2, rngCtr := ctr1 }
  if count < number_people_wanted - 1 ∧ st2.people.length = 0 then
    Except.error (PyErr.selectionError SelMsg.runOutOfPeople, st2.rngCtr)
  else
    Except.ok st2

/-- find_random_sample_legacy: repeat the selection step
`number_people_wanted` times, starting from the log line of the legacy
algorithm. Returns the final state (the Python function returns
`(people_selected, output_lines)` and mutates `categories`/`people` in
place; the embedding returns them explicitly, together with the rng call
counter). -/
def find_random_sample_legacy (randint : ℕ → ℤ → ℤ → ℤ) (categories : Categories)
    (people : People) (columns_data : List (ℕ × PersonRec)) (number_people_wanted : ℕ)
    (check_same_address : Bool) (check_same_address_columns : List String) (ctr0 : ℕ) :
    Except (PyErr × ℕ) LegacyRunState :=
  (List.range number_people_wanted).foldlM
    (legacySampleStep randint columns_data number_people_wanted check_same_address
      check_same_address_columns)
    ⟨categories, people, [], [LogEntry.usingLegacy], ctr0⟩

/-!  ### src/analysis.py  -/

/-- The instance dataclass of src/analysis.py. -/
structure Instance where
  k : ℕ
  categories : Categories
  agents : People
deriving DecidableEq

/-- The pair histogram dict: canonical keys are ordered pairs `(i, j)`
with `i < j < n`; `none` models a missing key (Python KeyError). -/
structure PairHistogram where
  hist : ℕ × ℕ → Option ℚ

/-- `sorted([i, j])` on a two-element list of ints. -/
def sortKey (key : ℕ × ℕ) : ℕ × ℕ :=
  if key.1 ≤ key.2 then key else (key.2, key.1)

/-- PairHistogram constructor: all pairs `i < j < n` map to 0; when
`uniform_distribution` is set each pair maps to 1 over the number of
pairs instead (for `n ≤ 1` the Python code would divide by zero; the
claims never touch that case). -/
def PairHistogram.init (number_of_agents : ℕ) (uniform_distribution : Bool) : PairHistogram :=
  let numPairs : ℚ := (number_of_agents * (number_of_agents - 1) / 2 : ℕ)
  ⟨fun key =>
    if key.1 < key.2 ∧ key.2 < number_of_agents then
      some (if uniform_distribution then 1 / numPairs else 0)
    else none⟩

/-- `__getitem__`: sort the key, then read the dict. -/
def PairHistogram.get (h : PairHistogram) (key : ℕ × ℕ) : Option ℚ :=
  h.hist (sortKey key)

/-- `__setitem__`: sort the key, then write the dict (inserting the
canonical key when absent, as a Python dict assignment does). -/
def PairHistogram.set (h : PairHistogram) (key : ℕ × ℕ) (value : ℚ) : PairHistogram :=
  ⟨fun k2 => if k2 = sortKey key then some value else h.hist k2⟩

/-- turn_into_probabilities_by_dividing_all_elements_by_given_number. -/
def PairHistogram.turn_into_probabilities (h : PairHistogram) (num : ℚ) : PairHistogram :=
  ⟨fun k2 => (h.hist k2).map (fun v => v / num)⟩

/-- Inner loop of add_portfolio_of_panels_to_histogram: add `prob` to the
histogram entry of `(a, b)` for each later panel member `b`. -/
def PairHistogram.addPairsOfHead : PairHistogram → ℕ → List ℕ → ℚ → Except PyErr PairHistogram
  | h, _, [], _ => Except.ok h
  | h, a, b :: rest, prob =>
    match h.get (a, b) with
    | none => Except.error PyErr.keyError
    | some cur => PairHistogram.addPairsOfHead (h.set (a, b) (cur + prob)) a rest prob

/-- Double loop of add_portfolio_of_panels_to_histogram over index pairs
`i < j` of one panel. -/
def PairHistogram.addPanel : PairHistogram → List ℕ → ℚ → Except PyErr PairHistogram
  | h, [], _ => Except.ok h
  | h, a :: rest, prob => do
    let h2 ← PairHistogram.addPairsOfHead h a rest prob
    PairHistogram.addPanel h2 rest prob

/-- add_portfolio_of_panels_to_histogram. -/
def PairHistogram.add_portfolio_of_panels_to_histogram (h : PairHistogram)
    (panels : List (List ℕ)) (probabilities : List ℚ) : Except PyErr PairHistogram :=
  (panels.zip probabilities).foldlM (fun acc pp => PairHistogram.addPanel acc pp.1 pp.2) h

/-- legacy_find of src/analysis.py: rerun find_random_sample_legacy on
fresh copies (value semantics make the deep copies implicit) until a run
succeeds and reaches all lower quotas; only SelectionError is caught,
other exceptions propagate. The `while True` loop is fuelled. -/
def legacy_find (randint : ℕ → ℤ → ℤ → ℤ) (feature_info : Categories) (agents : People)
    (k : ℕ) : ℕ → ℕ → Except (PyErr × ℕ) (List ℕ × ℕ)
  | 0, ctr => Except.error (PyErr.fuelExhausted, ctr)
  | fuel + 1, ctr =>
    match find_random_sample_legacy randint feature_info agents
        (agents.map (fun a => (a.1, ([] : PersonRec)))) k false [] ctr with
    | Except.error (PyErr.selectionError _, ctr2) => legacy_find randint feature_info agents k fuel ctr2
    | Except.error e => Except.error e
    | Except.ok res =>
      let (check_min_cat, _msgs) := check_min_cats res.categories
      if check_min_cat then Except.ok (res.people_selected.map (fun e => e.1), res.rngCtr)
      else legacy_find randint feature_info agents k fuel res.rngCtr

/-- Insertion into a sorted list of agent ids (helper for the embedding
of `panel.sort()`; structural recursion so that concrete runs compute). -/
def insertSorted (a : ℕ) : List ℕ → List ℕ
  | [] => [a]
  | b :: rest => if a ≤ b then a :: b :: rest else b :: insertSorted a rest

/-- `panel.sort()`: sort the agent ids ascending. -/
def sortList (l : List ℕ) : List ℕ := l.foldr insertSorted []

/-- legacy_probabilities: the quota-sum assertions, then `iterations`
panels drawn by legacy_find, counting appearances, collecting the set of
sorted panels, and accumulating the pair histogram, which is finally
divided by `iterations`. The random seeding is part of the rng oracle.
Appearance counts are kept as a function from agent id to count. -/
def legacy_probabilities (randint : ℕ → ℤ → ℤ → ℤ) (inst : Instance) (iterations : ℕ)
    (fuel : ℕ) : Except (PyErr × ℕ) (List (ℕ × ℚ) × Finset (List ℕ) × PairHistogram) := do
  let categories := inst.categories
  let agents := inst.agents
  let k := inst.k
  let found0 : Finset (List ℕ) := ∅
  let hist0 := PairHistogram.init agents.length false
  let _ ← categories.foldlM
    (fun (_ : Unit) c =>
      if ((c.2.map (fun w => w.2.min)).sum ≤ (k : ℤ)) ∧ ((k : ℤ) ≤ (c.2.map (fun w => w.2.max)).sum) then
        Except.ok ()
      else
        (Except.error (PyErr.assertionFailed, 0) : Except (PyErr × ℕ) Unit))
    ()
  let (counts, found, hist, ctrEnd) ← (List.range iterations).foldlM
    (fun (acc : (ℕ → ℕ) × Finset (List ℕ) × PairHistogram × ℕ) _ => do
      let (cnt, found, hist, ctr) := acc
      let (panel, ctr2) ← legacy_find randint categories agents k fuel ctr
      let panelSorted := sortList panel
      let hist2 ←
        match PairHistogram.add_portfolio_of_panels_to_histogram hist [panelSorted] [1] with
        | Except.error e => Except.error (e, ctr2)
        | Except.ok h => Except.ok h
      let cnt2 : ℕ → ℕ := fun id => if id ∈ panelSorted then cnt id + 1 else cnt id
      Except.ok (cnt2, insert panelSorted found, hist2, ctr2))
    ((fun _ => 0), found0, hist0, 0)
  let _ := ctrEnd
  Except.ok (agents.map (fun a => (a.1, (counts a.1 : ℚ) / (iterations : ℚ))), found,
             hist.turn_into_probabilities (iterations : ℚ))

/-!  ### src/xmin.py  -/

/-- A committee / panel: the frozenset of included agent ids. -/
abbrev Committee : Type := Finset ℕ

/-- _same_address of src/xmin.py. -/
def _same_address (columns_data1 columns_data2 : PersonRec) (check_same_address_columns : List String) : Bool :=
  check_same_address_columns.all
    (fun column => (lookupStr columns_data1 column).getD "" = (lookupStr columns_data2 column).getD "")

/-- Recursion of _compute_households over the id list: assign the next
household counter to the first unassigned id and to every later
unassigned id at the same address. -/
def computeHouseholdsAux (columns_data : List (ℕ × PersonRec)) (cols : List String) :
    List ℕ → List (ℕ × ℕ) → ℕ → List (ℕ × ℕ)
  | [], acc, _ => acc
  | id1 :: rest, acc, counter =>
    if (List.lookup id1 acc).isSome then
      computeHouseholdsAux columns_data cols rest acc counter
    else
      let row1 := (List.lookup id1 columns_data).getD []
      let newAssigned := (rest.filter (fun id2 =>
        (List.lookup id2 acc).isNone &&
          _same_address row1 ((List.lookup id2 columns_data).getD []) cols)).map
        (fun id2 => (id2, counter))
      computeHouseholdsAux columns_data cols rest ((acc ++ [(id1, counter)]) ++ newAssigned) (counter + 1)

/-- _compute_households: map each agent id to the household number of the
earliest pool member with the same address. -/
def _compute_households (people : People) (columns_data : List (ℕ × PersonRec))
    (check_same_address_columns : List String) : List (ℕ × ℕ) :=
  computeHouseholdsAux columns_data check_same_address_columns (people.map (fun e => e.1)) [] 0

/-- The feature-value key list
`[(feature, value) for feature in categories for value in categories[feature]]`. -/
def feature_values_of (categories : Categories) : List (String × String) :=
  categories.flatMap (fun c => c.2.map (fun w => (c.1, w.1)))

/-- reduction_weight from _relax_infeasible_quotas: 0 when the lower
quota is 0 (it cannot be relaxed anyway), else `1 + 2 / old_quota`. -/
def reduction_weight (categories : Categories) (fv : String × String) : ℚ :=
  let old_quota := ((lookupFV categories fv.1 fv.2).getD default).min
  if old_quota = 0 then 0 else 1 + 2 / (old_quota : ℚ)

/-- The objective the diagnoser hands to the solver,
`mip.xsum([reduction_weight(*fv) * min_vars[fv] for fv in feature_values]
+ [max_vars[fv] for fv in feature_values])`, evaluated at an integer
assignment of the slack variables (which have lower bound 0, hence `ℕ`). -/
def relaxObjective (categories : Categories) (deltaMin deltaMax : String × String → ℕ) : ℚ :=
  (((feature_values_of categories).map (fun fv => reduction_weight categories fv * (deltaMin fv : ℚ)))
    ++ ((feature_values_of categories).map (fun fv => (deltaMax fv : ℚ)))).sum

/-- Spec-side restatement of the diagnoser objective, following the words
of the specification: `Σ_v reduction_weight(v) · δ⁻_v + Σ_v δ⁺_v` with
`reduction_weight(v) = 0` if `min(v) = 0`, else `1 + 2/min(v)`. -/
def relaxObjectiveSpec (categories : Categories) (deltaMin deltaMax : String × String → ℕ) : ℚ :=
  ((feature_values_of categories).map (fun fv =>
    (if ((lookupFV categories fv.1 fv.2).getD default).min = 0 then 0
     else 1 + 2 / ((((lookupFV categories fv.1 fv.2).getD default).min : ℤ) : ℚ)) * (deltaMin fv : ℚ))).sum
  + ((feature_values_of categories).map (fun fv => (deltaMax fv : ℚ))).sum

/-- The body of the result loop of _relax_infeasible_quotas for one
feature value, including the three `assert` statements (modelled as
checks raising assertionFailed). The accumulator carries the
`new_quotas` association list and `output_lines`. -/
def relaxResultStep (categories : Categories) (deltaMin deltaMax : String × String → ℕ)
    (acc : List ((String × String) × (ℤ × ℤ)) × List LogEntry) (fv : String × String) :
    Except PyErr (List ((String × String) × (ℤ × ℤ)) × List LogEntry) :=
  let info := (lookupFV categories fv.1 fv.2).getD default
  let lower := info.min - (deltaMin fv : ℤ)
  if ¬ lower ≤ info.min then Except.error PyErr.assertionFailed
  else
    let lines1 := if lower < info.min then acc.2 ++ [LogEntry.recommendLower fv.1 fv.2 lower] else acc.2
    let upper := info.max + (deltaMax fv : ℤ)
    if ¬ info.max ≤ upper then Except.error PyErr.assertionFailed
    else if info.max < upper then
      if lower ≠ info.min then Except.error PyErr.assertionFailed
      else Except.ok (acc.1 ++ [(fv, (lower, upper))],
                      lines1 ++ [LogEntry.recommendRaise fv.1 fv.2 upper])
    else Except.ok (acc.1 ++ [(fv, (lower, upper))], lines1)

/-- _relax_infeasible_quotas: build the relaxation MIP (its constraints
live on the solver side, abstracted by the status/assignment oracle
arguments; `people`, `number_people_wanted`, `check_same_address`,
`households` and `ensure_inclusion` only shape that MIP), raise
SelectionError with the solver status if the solve is not optimal, and
otherwise read the integer slacks off the solution and produce
recommended quotas and notes, with the asserts of the source. -/
def _relax_infeasible_quotas (categories : Categories) (_people : People)
    (_number_people_wanted : ℕ) (_check_same_address : Bool) (_households : Option (List (ℕ × ℕ)))
    (relaxStatus : OptimizationStatus) (deltaMin deltaMax : String × String → ℕ) :
    Except PyErr (List ((String × String) × (ℤ × ℤ)) × List LogEntry) := do
  if relaxStatus ≠ OptimizationStatus.OPTIMAL then
    Except.error (PyErr.selectionError (SelMsg.noFeasibleCommittees relaxStatus))
  else
    (feature_values_of categories).foldlM (relaxResultStep categories deltaMin deltaMax) ([], [])

/-- _setup_committee_generation: build the feasibility IP (abstracted by
the oracles) and optimize once; on INFEASIBLE run the diagnoser and
raise InfeasibleQuotasError with its proposal, on any other non-OPTIMAL
status raise SelectionError carrying the status code. -/
def _setup_committee_generation (categories : Categories) (people : People)
    (number_people_wanted : ℕ) (check_same_address : Bool) (households : Option (List (ℕ × ℕ)))
    (setupStatus : OptimizationStatus) (relaxStatus : OptimizationStatus)
    (deltaMin deltaMax : String × String → ℕ) : Except PyErr Unit :=
  if setupStatus = OptimizationStatus.INFEASIBLE then
    match _relax_infeasible_quotas categories people number_people_wanted check_same_address
        households relaxStatus deltaMin deltaMax with
    | Except.ok (new_quotas, output_lines) => Except.error (PyErr.infeasibleQuotas new_quotas output_lines)
    | Except.error e => Except.error e
  else if setupStatus ≠ OptimizationStatus.OPTIMAL then
    Except.error (PyErr.selectionError (SelMsg.noFeasibleCommittees setupStatus))
  else
    Except.ok ()

/-- Python `set` insertion on the committee-set-as-list model: the set
of committees is kept as a duplicate-free list (membership, size and
`list(...)` are then list operations) and `add` appends when absent. -/
def setAdd (l : List Committee) (c : Committee) : List Committee :=
  if c ∈ l then l else l ++ [c]

/-- State of the multiplicative-weights phase of
_generate_initial_committees. -/
structure GenState where
  weights : ℕ → ℚ
  committees : List Committee
  covered_agents : Finset ℕ

/-- One multiplicative-weights round: price a committee maximizing the
weighted sum (`ipOpt` abstracts the committee-generation ILP), decrease
the weights of its members by the factor 0.8, rescale all weights to sum
to the pool size, then either record the new committee or smooth the
weights when it is already known. -/
def mwRound (ipOpt : (ℕ → ℚ) → Committee) (people : List ℕ) (st : GenState) : GenState :=
  let new_set := ipOpt st.weights
  let w1 : ℕ → ℚ := fun id => if id ∈ new_set then (8 / 10) * st.weights id else st.weights id
  let coefficient_sum := (people.map w1).sum
  let w2 : ℕ → ℚ := fun id => w1 id * (people.length : ℚ) / coefficient_sum
  if new_set ∉ st.committees then
    { weights := w2, committees := setAdd st.committees new_set,
      covered_agents := st.covered_agents ∪ new_set }
  else
    { weights := fun id => (9 / 10) * w2 id + 1 / 10, committees := st.committees,
      covered_agents := st.covered_agents }

/-- The coverage-completion phase: for each agent not yet covered,
optimize with the single-agent objective; record the committee when it
contains the agent, otherwise log that the agent cannot be covered. -/
def coverageStep (ipOpt : (ℕ → ℚ) → Committee)
    (acc : List Committee × Finset ℕ × List LogEntry) (id : ℕ) :
    List Committee × Finset ℕ × List LogEntry :=
  if id ∉ acc.2.1 then
    let new_set := ipOpt (fun p => if p = id then 1 else 0)
    if id ∈ new_set then (setAdd acc.1 new_set, acc.2.1 ∪ new_set, acc.2.2)
    else (acc.1, acc.2.1, acc.2.2 ++ [LogEntry.agentNotContained id])
  else acc

/-- _generate_initial_committees: the multiplicative-weights phase
followed by the coverage-completion phase, the `assert len(committees)
>= 1`, and the all-covered log line. -/
def _generate_initial_committees (ipOpt : (ℕ → ℚ) → Committee) (people : List ℕ)
    (multiplicative_weights_rounds : ℕ) :
    Except PyErr (List Committee × Finset ℕ × List LogEntry) :=
  let stMW := (List.range multiplicative_weights_rounds).foldl
    (fun st _ => mwRound ipOpt people st) ⟨fun _ => 1, [], ∅⟩
  let (committees, covered_agents, new_output_lines) :=
    people.foldl (coverageStep ipOpt) (stMW.committees, stMW.covered_agents, [])
  if committees = [] then Except.error PyErr.assertionFailed
  else
    Except.ok (committees, covered_agents,
      if covered_agents.card = people.length then new_output_lines ++ [LogEntry.allAgentsContained]
      else new_output_lines)

/-- The solution the code reads off an optimally solved dual LP: the
agent variables yᵢ, the cap variable ŷ and the model objective value. -/
structure DualSol where
  y : ℕ → ℚ
  yhat : ℚ
  obj : ℚ

/-- Status of a dual solve: the engine only distinguishes OPTIMAL (with
a readable solution) from everything else. -/
inductive DualStatus where
  | optimal (s : DualSol)
  | notOptimal

/-- The fixed_probabilities dict: its key set and the stored value per
key (only meaningful on the key set). -/
structure Fixed where
  dom : Finset ℕ
  val : ℕ → ℚ

/-- The relaxation applied to every fixed probability when the dual
becomes non-optimal: subtract 0.0001, clipped at 0. -/
def reduceFixed (f : Fixed) : Fixed :=
  ⟨f.dom, fun p => if p ∈ f.dom then max 0 (f.val p - 1 / 10000) else f.val p⟩

/-- The probability-fixing loop run at inner-loop termination: every not
yet fixed agent whose dual variable exceeds EPS gets its probability
fixed to `max 0 dual_obj`, in pool iteration order. -/
def fixAgents (f : Fixed) (w : ℕ → ℚ) (dual_obj : ℚ) (people : List ℕ) : Fixed :=
  people.foldl
    (fun acc p =>
      if EPS < w p ∧ p ∉ acc.dom then
        ⟨insert p acc.dom, fun q => if q = p then max 0 dual_obj else acc.val q⟩
      else acc)
    f

/-- The value `new_committee_model.objective_value` after pricing: the
weighted-sum objective `Σ_{person ∈ people} y(person) · x(person)`
evaluated at the indicator of the returned committee. -/
def committeeObjValue (y : ℕ → ℚ) (people : List ℕ) (new_set : Committee) : ℚ :=
  ((people.filter (fun p => p ∈ new_set)).map y).sum

/-- The inner column-generation loop of _expand_distribution_leximin.
`pricing` abstracts the committee-generation ILP (it returns the panel
read off the solved model for the given weighted objective) and
`dualSolve` abstracts building and solving the dual LP from the current
committee set and fixed probabilities (the Python code keeps one dual
model and adds constraints incrementally, which yields exactly the
constraint set determined by `(committees, fixed)`). A non-optimal dual
reduces all fixed probabilities and retries; an optimal dual prices a
new panel: within tolerance the loop terminates fixing probabilities,
otherwise the panel is asserted new, added, and the loop repeats. The
`while True` loop is fuelled. -/
def innerLoop (pricing : (ℕ → ℚ) → Committee) (dualSolve : List Committee → Fixed → DualStatus)
    (people : List ℕ) :
    ℕ → List Committee → Fixed → ℕ → List LogEntry →
    Except PyErr (List Committee × Fixed × ℕ × List LogEntry)
  | 0, _, _, _, _ => Except.error PyErr.fuelExhausted
  | fuel + 1, committees, fixed, reduction_counter, output_lines =>
    if committees = [] then Except.error PyErr.assertionFailed
    else
      match dualSolve committees fixed with
      | DualStatus.notOptimal =>
        innerLoop pricing dualSolve people fuel committees (reduceFixed fixed)
          (reduction_counter + 1) output_lines
      | DualStatus.optimal s =>
        let agent_weights := s.y
        let new_set := pricing agent_weights
        let value := committeeObjValue agent_weights people new_set
        let upper := s.yhat
        let dual_obj := s.obj
        let lines2 := output_lines ++
          [LogEntry.maximin (dual_obj - upper + value) dual_obj committees.length (value - upper)]
        if value ≤ upper + EPS then
          Except.ok (committees, fixAgents fixed agent_weights dual_obj people,
                     reduction_counter, lines2)
        else if new_set ∈ committees then Except.error PyErr.assertionFailed
        else innerLoop pricing dualSolve people fuel (setAdd committees new_set) fixed
          reduction_counter lines2

/-- The outer loop of _expand_distribution_leximin: while not every
agent's probability is fixed, run the inner column generation and
continue with its state. The `while` loop is fuelled. -/
def outerLoop (pricing : (ℕ → ℚ) → Committee) (dualSolve : List Committee → Fixed → DualStatus)
    (people : List ℕ) (innerFuel : ℕ) :
    ℕ → List Committee → Fixed → ℕ → List LogEntry →
    Except PyErr (List Committee × Fixed × List LogEntry)
  | 0, _, _, _, _ => Except.error PyErr.fuelExhausted
  | fuel + 1, committees, fixed, reduction_counter, output_lines =>
    if fixed.dom.card < people.length then
      match innerLoop pricing dualSolve people innerFuel committees fixed reduction_counter
          output_lines with
      | Except.error e => Except.error e
      | Except.ok (c2, f2, r2, l2) => outerLoop pricing dualSolve people innerFuel fuel c2 f2 r2 l2
    else
      Except.ok (committees, fixed, output_lines)

/-- `np.clip(0, 1)` on one entry. -/
def clip01 (x : ℚ) : ℚ := min 1 (max 0 x)

/-- The final randomization-reconstruction stage: solve the primal LP
over one variable per committee (the oracle returns the variable values
by index, or `none` when the model has no readable solution), clip the
values to [0, 1] and renormalize. -/
def reconstructDistribution (primalSolve : List Committee → Fixed → Option (ℕ → ℚ))
    (committees : List Committee) (fixed : Fixed) :
    Except PyErr (List Committee × List ℚ) :=
  let committee_list := committees
  match primalSolve committee_list fixed with
  | none => Except.error PyErr.gurobiError
  | some xs =>
    let raw := (List.range committee_list.length).map xs
    let clipped := raw.map clip01
    let s := clipped.sum
    Except.ok (committee_list, clipped.map (fun p => p / s))

/-- The solver oracles of the LEXIMIN/XMIN subsystem: the status of the
first feasibility solve, the status and slack assignment of the
relaxation MIP, the committee-generation ILP (used both for the initial
committees and for pricing), the dual LP and the final primal LP. -/
structure SolverOracles where
  setupStatus : OptimizationStatus
  relaxStatus : OptimizationStatus
  deltaMin : String × String → ℕ
  deltaMax : String × String → ℕ
  pricing : (ℕ → ℚ) → Committee
  dualSolve : List Committee → Fixed → DualStatus
  primalSolve : List Committee → Fixed → Option (ℕ → ℚ)

/-- _expand_distribution_leximin: compute households when household mode
is on, set up the committee-generation ILP (which may raise), run the
outer loop from the given initial committees with no fixed
probabilities, and reconstruct the output distribution. The
`initial_covered_agents` argument is unused by the source after
destructuring, as here. -/
def _expand_distribution_leximin (O : SolverOracles) (categories : Categories) (people : People)
    (columns_data : List (ℕ × PersonRec)) (number_people_wanted : ℕ) (check_same_address : Bool)
    (check_same_address_columns : List String) (initial_committees : List Committee)
    (_initial_covered_agents : Finset ℕ) (innerFuel outerFuel : ℕ) :
    Except PyErr (List Committee × List ℚ × List LogEntry) :=
  let output_lines := [LogEntry.usingLeximin]
  let households := if check_same_address then
      some (_compute_households people columns_data check_same_address_columns)
    else none
  match _setup_committee_generation categories people number_people_wanted check_same_address
      households O.setupStatus O.relaxStatus O.deltaMin O.deltaMax with
  | Except.error e => Except.error e
  | Except.ok _ =>
    match outerLoop O.pricing O.dualSolve (people.map (fun e => e.1)) innerFuel outerFuel
        initial_committees ⟨∅, fun _ => 0⟩ 0 output_lines with
    | Except.error e => Except.error e
    | Except.ok (committees, fixed, lines) =>
      match reconstructDistribution O.primalSolve committees fixed with
      | Except.error e => Except.error e
      | Except.ok (committee_list, probabilities) => Except.ok (committee_list, probabilities, lines)

/-- _get_panel_not_in_portfolio_if_possible, inner loop: try up to `t`
LEGACY samples (the randomized legacy_find of src/analysis.py is
abstracted as an oracle indexed by a running call counter), returning
the first panel not already in the portfolio list, else `none`. The
returned counter determines the number of LEGACY calls made. -/
def getPanelAux (legacyFind : ℕ → Committee) (portfolioList : List Committee) :
    ℕ → ℕ → Option Committee × ℕ
  | 0, ctr => (none, ctr)
  | t + 1, ctr =>
    let panel := legacyFind ctr
    if panel ∉ portfolioList then (some panel, ctr + 1)
    else getPanelAux legacyFind portfolioList t (ctr + 1)

/-- _get_panel_not_in_portfolio_if_possible: at most `len(agents) * 3`
LEGACY calls seeking a panel not in the portfolio (`k` is consumed by
the legacy_find oracle). -/
def _get_panel_not_in_portfolio_if_possible (legacyFind : ℕ → Committee) (agents : People)
    (_k : ℕ) (portfolioList : List Committee) (ctr : ℕ) : Option Committee × ℕ :=
  getPanelAux legacyFind portfolioList (agents.length * 3) ctr

/-- Modelled from the spec: the module leximin.py (not under src/)
provides find_distribution_leximin; per the specification the LEXIMIN
algorithm is the composition feasibility-IP setup → initial-portfolio
builder → LEXIMIN engine → randomization reconstructor, realized here by
the embedded _setup_committee_generation, _generate_initial_committees
and _expand_distribution_leximin (the engine embeds the reconstructor). -/
def find_distribution_leximin (O : SolverOracles) (categories : Categories) (people : People)
    (columns_data : List (ℕ × PersonRec)) (number_people_wanted : ℕ) (check_same_address : Bool)
    (check_same_address_columns : List String) (mwRounds innerFuel outerFuel : ℕ) :
    Except PyErr (List Committee × List ℚ × List LogEntry) :=
  let households := if check_same_address then
      some (_compute_households people columns_data check_same_address_columns)
    else none
  match _setup_committee_generation categories people number_people_wanted check_same_address
      households O.setupStatus O.relaxStatus O.deltaMin O.deltaMax with
  | Except.error e => Except.error e
  | Except.ok _ =>
    match _generate_initial_committees O.pricing (people.map (fun e => e.1)) mwRounds with
    | Except.error e => Except.error e
    | Except.ok (committees, covered, _glines) =>
      _expand_distribution_leximin O categories people columns_data number_people_wanted
        check_same_address check_same_address_columns committees covered innerFuel outerFuel

/-- The covered-agents recomputation in find_distribution_xmin: scan the
committee set, breaking once every agent is covered. -/
def updateCoveredAgents (people : People) (initial_committees : List Committee) : Finset ℕ :=
  initial_committees.foldl
    (fun covered com => if covered.card = people.length then covered else covered ∪ com) ∅

/-- The portfolio-extension loop of find_distribution_xmin, instrumented
with a ghost counter of loop-body entries (the Python `for i in
range(len(agents) * 5)` loop; the counter measures how many extension
iterations actually ran). -/
def xminLoopAux (O : SolverOracles) (legacyFind : ℕ → Committee) (categories : Categories)
    (people : People) (columns_data : List (ℕ × PersonRec)) (number_people_wanted : ℕ)
    (check_same_address : Bool) (check_same_address_columns : List String)
    (innerFuel outerFuel : ℕ) :
    ℕ → (List Committee × List ℚ × List LogEntry) → ℕ →
    Except PyErr (List Committee × List ℚ × List LogEntry) × ℕ
  | 0, trip, _ => (Except.ok trip, 0)
  | i + 1, trip, ctr =>
    match _get_panel_not_in_portfolio_if_possible legacyFind people number_people_wanted
        trip.1 ctr with
    | (none, _) => (Except.ok trip, 1)
    | (some new_panel, ctr2) =>
      let portfolio2 := trip.1 ++ [new_panel]
      let initial_committees := portfolio2.dedup
      let initial_covered_agents := updateCoveredAgents people initial_committees
      match _expand_distribution_leximin O categories people columns_data number_people_wanted
          check_same_address check_same_address_columns initial_committees
          initial_covered_agents innerFuel outerFuel with
      | Except.error e => (Except.error e, 1)
      | Except.ok trip2 =>
        let (res, n) := xminLoopAux O legacyFind categories people columns_data
          number_people_wanted check_same_address check_same_address_columns innerFuel outerFuel
          i trip2 ctr2
        (res, n + 1)

/-- find_distribution_xmin: run LEXIMIN, then repeatedly ask LEGACY for
a panel outside the current portfolio, add it and re-run the engine,
stopping when no novel panel is found or the iteration budget
`len(agents) * 5` is exhausted. Returns the result together with the
ghost count of extension iterations that ran. -/
def find_distribution_xmin (O : SolverOracles) (legacyFind : ℕ → Committee)
    (categories : Categories) (people : People) (columns_data : List (ℕ × PersonRec))
    (number_people_wanted : ℕ) (check_same_address : Bool)
    (check_same_address_columns : List String) (mwRounds innerFuel outerFuel : ℕ) :
    Except PyErr (List Committee × List ℚ × List LogEntry) × ℕ :=
  match find_distribution_leximin O categories people columns_data number_people_wanted
      check_same_address check_same_address_columns mwRounds innerFuel outerFuel with
  | Except.error e => (Except.error e, 0)
  | Except.ok trip =>
    xminLoopAux O legacyFind categories people columns_data number_people_wanted
      check_same_address check_same_address_columns innerFuel outerFuel
      (people.length * 5) trip 0

/-!  ### Spec-side notions used in the claim statements  -/

/-- The flattened feature-value scan order of find_max_ratio_cat:
`(category key, value key, quota info)` triples in iteration order over
categories and features. -/
def fmrc_flatten (categories : Categories) : List (String × String × FeatureInfo) :=
  categories.flatMap (fun c => c.2.map (fun w => (c.1, w.1, w.2)))

/-- The failure condition of the first check in find_max_ratio_cat:
fewer remaining holders than needed to reach the lower quota. -/
abbrev cond_fail1 (it : FeatureInfo) : Prop :=
  it.selected < it.min ∧ it.remaining < it.min - it.selected

/-- A feature value is eligible for selection when holders remain and the
upper quota is nonzero. -/
abbrev eligibleFV (it : FeatureInfo) : Prop :=
  it.remaining ≠ 0 ∧ it.max ≠ 0

/-- The deficit ratio `(min - selected) / remaining` of a feature value. -/
def deficit_ratio (it : FeatureInfo) : ℚ :=
  ((it.min - it.selected : ℤ) : ℚ) / ((it.remaining : ℤ) : ℚ)

/-- The distribution contract checked for LEXIMIN/XMIN results: as many
probabilities as committees, all non-negative, summing to 1 within EPS,
over pairwise-distinct committees. -/
def GoodDistribution (committee_list : List Committee) (probabilities : List ℚ) : Prop :=
  probabilities.length = committee_list.length ∧
  (∀ q ∈ probabilities, 0 ≤ q) ∧
  |probabilities.sum - 1| ≤ EPS ∧
  committee_list.Nodup

/-!  ### Concrete inputs used by witnesses and counterexamples  -/

/-- An rng oracle that always answers 1. -/
def rngOne : ℕ → ℤ → ℤ → ℤ := fun _ _ _ => 1

/-- A quota state in which the single eligible feature value has deficit
ratio exactly -100 (min 0, max 200, selected 100, remaining 1): the
sentinel initialization of find_max_ratio_cat then prevents any
selection. -/
def catsSentinel : Categories := [("c", [("a", ⟨0, 200, 100, 1⟩)])]

/-- A trivially satisfiable one-value quota state. -/
def catsTiny : Categories := [("c", [("a", ⟨0, 1, 0, 1⟩)])]

/-- A one-person pool holding value "a" of category "c". -/
def peopleTiny : People := [(0, [("c", "a")])]

/-- A two-value quota state on which find_max_ratio_cat picks the value
with the larger deficit ratio. -/
def catsTwo : Categories := [("g", [("f", ⟨1, 2, 0, 2⟩), ("m", ⟨0, 1, 0, 1⟩)])]

/-- A pool of 2001 agents, more than 1/EPS of them. -/
def peopleBig : List ℕ := List.range 2001

/-- The uniform dual solution 1/2001 on the big pool: a feasible dual
solution in which no agent variable exceeds EPS. -/
def yBig : ℕ → ℚ := fun _ => 1 / 2001

/-- A singleton committee set. -/
def committeesOne : List Committee := [({0} : Finset ℕ)]

/-- A dual-solve oracle that always returns the uniform solution on the
big pool (with cap variable and objective value 1/2001). -/
def dualBig : List Committee → Fixed → DualStatus := fun _ _ =>
  DualStatus.optimal ⟨yBig, 1 / 2001, 1 / 2001⟩

/-- A pricing oracle that always returns the committee {0}. -/
def pricingZero : (ℕ → ℚ) → Committee := fun _ => ({0} : Finset ℕ)

/-- The empty fixed-probabilities dict. -/
def fixedEmpty : Fixed := ⟨∅, fun _ => 0⟩

/-- A two-person pool. -/
def peoplePair : People := [(0, [("c", "a")]), (1, [("c", "a")])]

/-- Oracles driving a complete tiny LEXIMIN run on the two-person pool:
both solves optimal, pricing always returns {0, 1}, the dual solve gives
both agents weight 1/2 with cap 1 and objective 1/2, and the final
primal puts probability 1 on the single committee. -/
def oraclesPair : SolverOracles where
  setupStatus := OptimizationStatus.OPTIMAL
  relaxStatus := OptimizationStatus.OPTIMAL
  deltaMin := fun _ => 0
  deltaMax := fun _ => 0
  pricing := fun _ => ({0, 1} : Finset ℕ)
  dualSolve := fun _ _ => DualStatus.optimal ⟨fun _ => 1 / 2, 1, 1 / 2⟩
  primalSolve := fun cl _ => if cl.length = 1 then some (fun _ => 1) else none

/-- A legacy_find oracle that always returns the committee {0, 1}. -/
def legacyFindPair : ℕ → Committee := fun _ => ({0, 1} : Finset ℕ)

/-- The bound relation claimed for the diagnoser output: each recommended
quota pair relaxes the original quota of its feature value downward on
min, upward on max, and never strictly in both directions. -/
def QuotaBound (categories : Categories) (e : (String × String) × (ℤ × ℤ)) : Prop :=
  ∀ info, lookupFV categories e.1.1 e.1.2 = some info →
    e.2.1 ≤ info.min ∧ info.max ≤ e.2.2 ∧ (info.max < e.2.2 → e.2.1 = info.min)

/-- `(catKey, valKey)` is the first feature value in the scan order of
`l` attaining the maximum deficit ratio among eligible feature values:
some split `l = l1 ++ e :: l2` with `e` eligible, every eligible entry
before it strictly smaller and every eligible entry after it no
larger. -/
def FirstMaxEligible (l : List (String × String × FeatureInfo)) (catKey valKey : String)
    (r : ℚ) : Prop :=
  ∃ l1 e l2, l = l1 ++ e :: l2 ∧ e.1 = catKey ∧ e.2.1 = valKey ∧ eligibleFV e.2.2 ∧
    deficit_ratio e.2.2 = r ∧
    (∀ e2 ∈ l1, eligibleFV e2.2.2 → deficit_ratio e2.2.2 < r) ∧
    (∀ e2 ∈ l2, eligibleFV e2.2.2 → deficit_ratio e2.2.2 ≤ r)

/-- The loop invariant of find_max_ratio_cat's scan: either nothing
eligible above the sentinel -100 has been seen and the accumulator still
holds the initial sentinel values, or the accumulator holds the first
eligible feature value attaining the running maximum ratio. -/
def fmrcInv (prefixList : List (String × String × FeatureInfo)) (st : MaxRatioState) : Prop :=
  (st.ratioAcc = -100 ∧ st.key_max = "" ∧ st.index_max_name = "" ∧
    ∀ e ∈ prefixList, eligibleFV e.2.2 → deficit_ratio e.2.2 ≤ -100) ∨
  (-100 < st.ratioAcc ∧ FirstMaxEligible prefixList st.key_max st.index_max_name st.ratioAcc)

/-!  ### Theorems  -/

theorem sortKey_eq (i j : ℕ) : sortKey (i, j) = (min i j, max i j) := by
  simp only [sortKey]
  rcases le_or_lt i j with h | h
  · simp [h, min_eq_left h, max_eq_right h]
  · have h2 : ¬ i ≤ j := not_le.mpr h
    simp [h2, min_eq_right h.le, max_eq_left h.le]

/-- C8: for any pair of distinct agent indices i and j, reading the pair
histogram at (i, j) and (j, i) returns the same value, and writing at
(j, i) updates the canonical entry (min(i,j), max(i,j)), the same entry
as writing at (i, j). -/
theorem pair_histogram_unordered_access (h : PairHistogram) (v : ℚ) (i j : ℕ)
    (_hij : i ≠ j) :
    PairHistogram.get h (i, j) = PairHistogram.get h (j, i) ∧
    (PairHistogram.set h (j, i) v).hist =
      (fun k2 => if k2 = (min i j, max i j) then some v else h.hist k2) ∧
    PairHistogram.set h (j, i) v = PairHistogram.set h (i, j) v := by
  refine ⟨?_, ?_, ?_⟩
  · show h.hist (sortKey (i, j)) = h.hist (sortKey (j, i))
    rw [sortKey_eq, sortKey_eq, min_comm, max_comm]
  · show (fun k2 => if k2 = sortKey (j, i) then some v else h.hist k2) = _
    funext k2
    rw [sortKey_eq, min_comm, max_comm]
  · show PairHistogram.mk (fun k2 => if k2 = sortKey (j, i) then some v else h.hist k2) =
      PairHistogram.mk (fun k2 => if k2 = sortKey (i, j) then some v else h.hist k2)
    have : sortKey (j, i) = sortKey (i, j) := by
      rw [sortKey_eq, sortKey_eq, min_comm, max_comm]
    rw [this]

theorem pair_histogram_unordered_access_witness :
    (0 : ℕ) ≠ 1 ∧
    PairHistogram.get (PairHistogram.init 2 false) (0, 1) =
      PairHistogram.get (PairHistogram.init 2 false) (1, 0) :=
  ⟨by decide,
   (pair_histogram_unordered_access (PairHistogram.init 2 false) 1 0 1 (by decide)).1⟩

/-- C5: the diagnoser objective handed to the solver equals the
spec formula `Σ_v reduction_weight(v) · δ⁻_v + Σ_v δ⁺_v` with
`reduction_weight(v) = 0` when `min(v) = 0` and `1 + 2/min(v)` otherwise,
over non-negative integer slack assignments. -/
theorem relax_objective_matches_spec (categories : Categories)
    (deltaMin deltaMax : String × String → ℕ) :
    relaxObjective categories deltaMin deltaMax = relaxObjectiveSpec categories deltaMin deltaMax := by
  unfold relaxObjective relaxObjectiveSpec reduction_weight
  rw [List.sum_append]

theorem relaxResultStep_ok_entries (categories : Categories) (dm dp : String × String → ℕ)
    (acc : List ((String × String) × (ℤ × ℤ)) × List LogEntry) (x : String × String)
    (acc2 : List ((String × String) × (ℤ × ℤ)) × List LogEntry)
    (h : relaxResultStep categories dm dp acc x = Except.ok acc2) :
    ∀ e ∈ acc2.1, e ∈ acc.1 ∨ QuotaBound categories e := by
  simp only [relaxResultStep] at h
  split_ifs at h
  all_goals
    injection h with h
    subst h
    intro e he
    rcases List.mem_append.mp he with he | he
    · exact Or.inl he
    · refine Or.inr ?_
      have he2 := List.mem_singleton.mp he
      subst he2
      intro info hinfo
      simp only [hinfo, Option.getD_some] at *
      refine ⟨by omega, by omega, fun hlt => by omega⟩

theorem relaxResult_fold_bounds (categories : Categories) (dm dp : String × String → ℕ) :
    ∀ (l : List (String × String)) (acc : List ((String × String) × (ℤ × ℤ)) × List LogEntry),
      (∀ e ∈ acc.1, QuotaBound categories e) →
      ∀ q lines, l.foldlM (relaxResultStep categories dm dp) acc = Except.ok (q, lines) →
      ∀ e ∈ q, QuotaBound categories e := by
  intro l
  induction l with
  | nil =>
    intro acc hacc q lines hfold e he
    simp only [List.foldlM_nil] at hfold
    injection hfold with hfold
    rw [hfold] at hacc
    exact hacc e he
  | cons x rest ih =>
    intro acc hacc q lines hfold e he
    rw [List.foldlM_cons] at hfold
    cases hstep : relaxResultStep categories dm dp acc x with
    | error e1 => rw [hstep] at hfold; exact Except.noConfusion hfold
    | ok acc2 =>
      rw [hstep] at hfold
      have hacc2 : ∀ e2 ∈ acc2.1, QuotaBound categories e2 := by
        intro e2 he2
        rcases relaxResultStep_ok_entries categories dm dp acc x acc2 hstep e2 he2 with hmem | hq
        · exact hacc e2 hmem
        · exact hq
      exact ih acc2 hacc2 q lines hfold e he

/-- C10: every quota pair `(lower, upper)` recommended by the relaxation
diagnoser satisfies `lower ≤ min`, `upper ≥ max`, and is never strictly
relaxed in both directions: if `upper > max` then `lower = min`. -/
theorem relax_quota_bounds (categories : Categories) (people : People) (k : ℕ) (chk : Bool)
    (hh : Option (List (ℕ × ℕ))) (relaxStatus : OptimizationStatus)
    (dm dp : String × String → ℕ) (q : List ((String × String) × (ℤ × ℤ)))
    (lines : List LogEntry)
    (hok : _relax_infeasible_quotas categories people k chk hh relaxStatus dm dp =
      Except.ok (q, lines)) :
    ∀ e ∈ q, QuotaBound categories e := by
  unfold _relax_infeasible_quotas at hok
  by_cases h1 : relaxStatus ≠ OptimizationStatus.OPTIMAL
  · rw [if_pos h1] at hok
    exact Except.noConfusion hok
  · rw [if_neg h1] at hok
    exact relaxResult_fold_bounds categories dm dp _ ([], []) (by simp) q lines hok

theorem relax_quota_bounds_witness :
    _relax_infeasible_quotas catsTiny peopleTiny 1 false none OptimizationStatus.OPTIMAL
      (fun _ => 0) (fun _ => 0) = Except.ok ([(("c", "a"), (0, 1))], []) ∧
    ∀ e ∈ [((("c", "a") : String × String), ((0 : ℤ), (1 : ℤ)))], QuotaBound catsTiny e := by
  have heq : _relax_infeasible_quotas catsTiny peopleTiny 1 false none OptimizationStatus.OPTIMAL
      (fun _ => 0) (fun _ => 0) = Except.ok ([(("c", "a"), (0, 1))], []) := by rfl
  exact ⟨heq, relax_quota_bounds catsTiny peopleTiny 1 false none OptimizationStatus.OPTIMAL
    (fun _ => 0) (fun _ => 0) [(("c", "a"), (0, 1))] [] heq⟩

/-- C4: when the first feasibility solve reports INFEASIBLE, the
relaxation diagnoser is run and an InfeasibleQuotasError carrying its
quota proposal and notes is raised (never a successful return); when
the solve returns any status that is neither OPTIMAL nor INFEASIBLE, a
SelectionError carrying that status code is raised. -/
theorem setup_infeasibility_error_handling (categories : Categories) (people : People) (k : ℕ)
    (chk : Bool) (hh : Option (List (ℕ × ℕ))) (relaxStatus : OptimizationStatus)
    (dm dp : String × String → ℕ) :
    (∀ q lines,
      _relax_infeasible_quotas categories people k chk hh relaxStatus dm dp = Except.ok (q, lines) →
      _setup_committee_generation categories people k chk hh OptimizationStatus.INFEASIBLE
        relaxStatus dm dp = Except.error (PyErr.infeasibleQuotas q lines)) ∧
    (∀ u, _setup_committee_generation categories people k chk hh OptimizationStatus.INFEASIBLE
      relaxStatus dm dp ≠ Except.ok u) ∧
    (∀ st : OptimizationStatus, st ≠ OptimizationStatus.OPTIMAL →
      st ≠ OptimizationStatus.INFEASIBLE →
      _setup_committee_generation categories people k chk hh st relaxStatus dm dp =
        Except.error (PyErr.selectionError (SelMsg.noFeasibleCommittees st))) := by
  refine ⟨?_, ?_, ?_⟩
  · intro q lines hrelax
    unfold _setup_committee_generation
    rw [if_pos rfl, hrelax]
  · intro u
    unfold _setup_committee_generation
    rw [if_pos rfl]
    cases _relax_infeasible_quotas categories people k chk hh relaxStatus dm dp with
    | error e => simp
    | ok pr => simp
  · intro st h1 h2
    unfold _setup_committee_generation
    rw [if_neg h2, if_pos h1]

theorem setup_infeasibility_error_handling_witness :
    (_relax_infeasible_quotas catsTiny peopleTiny 1 false none OptimizationStatus.OPTIMAL
      (fun _ => 0) (fun _ => 0) = Except.ok ([(("c", "a"), (0, 1))], [])) ∧
    _setup_committee_generation catsTiny peopleTiny 1 false none OptimizationStatus.INFEASIBLE
      OptimizationStatus.OPTIMAL (fun _ => 0) (fun _ => 0) =
      Except.error (PyErr.infeasibleQuotas [(("c", "a"), (0, 1))] []) ∧
    _setup_committee_generation catsTiny peopleTiny 1 false none OptimizationStatus.UNBOUNDED
      OptimizationStatus.OPTIMAL (fun _ => 0) (fun _ => 0) =
      Except.error (PyErr.selectionError (SelMsg.noFeasibleCommittees
        OptimizationStatus.UNBOUNDED)) := by
  have heq : _relax_infeasible_quotas catsTiny peopleTiny 1 false none OptimizationStatus.OPTIMAL
      (fun _ => 0) (fun _ => 0) = Except.ok ([(("c", "a"), (0, 1))], []) := by rfl
  refine ⟨heq, ?_, ?_⟩
  · exact (setup_infeasibility_error_handling catsTiny peopleTiny 1 false none
      OptimizationStatus.OPTIMAL (fun _ => 0) (fun _ => 0)).1 _ _ heq
  · exact (setup_infeasibility_error_handling catsTiny peopleTiny 1 false none
      OptimizationStatus.OPTIMAL (fun _ => 0) (fun _ => 0)).2.2 OptimizationStatus.UNBOUNDED
      (by decide) (by decide)

theorem fixAgents_cons (f : Fixed) (w : ℕ → ℚ) (o : ℚ) (p : ℕ) (rest : List ℕ) :
    fixAgents f w o (p :: rest) =
      fixAgents
        (if EPS < w p ∧ p ∉ f.dom then
          ⟨insert p f.dom, fun q => if q = p then max 0 o else f.val q⟩
        else f) w o rest := rfl

theorem fixAgents_dom (w : ℕ → ℚ) (o : ℚ) :
    ∀ (people : List ℕ) (f : Fixed),
      (fixAgents f w o people).dom =
        f.dom ∪ people.toFinset.filter (fun p => EPS < w p ∧ p ∉ f.dom) := by
  intro people
  induction people with
  | nil => intro f; simp [fixAgents]
  | cons p rest ih =>
    intro f
    rw [fixAgents_cons]
    by_cases hc : EPS < w p ∧ p ∉ f.dom
    · rw [if_pos hc]
      rw [ih ⟨insert p f.dom, fun q => if q = p then max 0 o else f.val q⟩]
      ext a
      simp only [Finset.mem_union, Finset.mem_insert, Finset.mem_filter, List.mem_toFinset,
        List.mem_cons]
      have h1 := hc.1
      have h2 := hc.2
      by_cases hap : a = p
      · subst hap
        tauto
      · tauto
    · rw [if_neg hc]
      rw [ih f]
      ext a
      simp only [Finset.mem_union, Finset.mem_filter, List.mem_toFinset, List.mem_cons]
      by_cases hap : a = p
      · subst hap
        tauto
      · tauto

theorem fixAgents_val (w : ℕ → ℚ) (o : ℚ) :
    ∀ (people : List ℕ) (f : Fixed) (p : ℕ),
      (fixAgents f w o people).val p =
        if p ∈ people ∧ EPS < w p ∧ p ∉ f.dom then max 0 o else f.val p := by
  intro people
  induction people with
  | nil => intro f p; simp [fixAgents]
  | cons q rest ih =>
    intro f p
    rw [fixAgents_cons]
    by_cases hcq : EPS < w q ∧ q ∉ f.dom
    · rw [if_pos hcq]
      rw [ih ⟨insert q f.dom, fun r => if r = q then max 0 o else f.val r⟩ p]
      by_cases hpq : p = q
      · subst hpq
        have hmem : p ∈ p :: rest := List.mem_cons_self p rest
        rw [if_neg (by simp), if_pos ⟨hmem, hcq.1, hcq.2⟩]
        simp
      · simp only [Finset.mem_insert, List.mem_cons]
        by_cases hcp : p ∈ rest ∧ EPS < w p ∧ ¬(p = q ∨ p ∈ f.dom)
        · rw [if_pos hcp, if_pos ⟨Or.inr hcp.1, hcp.2.1, by tauto⟩]
        · rw [if_neg hcp, if_neg hpq, if_neg (by tauto)]
    · rw [if_neg hcq]
      rw [ih f p]
      by_cases hpq : p = q
      · subst hpq
        by_cases hcp : p ∈ rest ∧ EPS < w p ∧ p ∉ f.dom
        · exact absurd ⟨hcp.2.1, hcp.2.2⟩ hcq
        · rw [if_neg hcp, if_neg (by
            intro hx
            exact hcq ⟨hx.2.1, hx.2.2⟩)]
      · simp only [List.mem_cons]
        by_cases hcp : p ∈ rest ∧ EPS < w p ∧ p ∉ f.dom
        · rw [if_pos hcp, if_pos ⟨Or.inr hcp.1, hcp.2⟩]
        · rw [if_neg hcp, if_neg (by tauto)]

theorem fixAgents_id (w : ℕ → ℚ) (o : ℚ) :
    ∀ (people : List ℕ) (f : Fixed),
      (∀ p ∈ people, ¬(EPS < w p ∧ p ∉ f.dom)) → fixAgents f w o people = f := by
  intro people
  induction people with
  | nil => intro f _; rfl
  | cons q rest ih =>
    intro f hall
    rw [fixAgents_cons, if_neg (hall q (List.mem_cons_self q rest))]
    exact ih f (fun p hp => hall p (List.mem_cons_of_mem q hp))

theorem EPS_pos : (0 : ℚ) < EPS := by norm_num [EPS]

/-- C2: after an optimal dual solve with solution `s`, with `v*` the
pricing objective value of the priced panel: if `v* ≤ ŷ + EPS` the inner
loop terminates, fixing `F[i] = max(0, d*)` for exactly the not yet
fixed agents with `y i > EPS` (dual objective value `d*`); otherwise the
priced panel is not yet among the committees, is added to them (adding
its dual constraint), and the loop repeats. -/
theorem leximin_inner_column_generation
    (pricing : (ℕ → ℚ) → Committee) (dualSolve : List Committee → Fixed → DualStatus)
    (people : List ℕ) (fuel : ℕ) (committees : List Committee) (fixed : Fixed)
    (red : ℕ) (log : List LogEntry) (s : DualSol)
    (hne : committees ≠ [])
    (hopt : dualSolve committees fixed = DualStatus.optimal s)
    (hfeas : ∀ P ∈ committees, committeeObjValue s.y people P ≤ s.yhat) :
    (committeeObjValue s.y people (pricing s.y) ≤ s.yhat + EPS →
      innerLoop pricing dualSolve people (fuel + 1) committees fixed red log =
        Except.ok (committees, fixAgents fixed s.y s.obj people, red,
          log ++ [LogEntry.maximin
            (s.obj - s.yhat + committeeObjValue s.y people (pricing s.y)) s.obj
            committees.length (committeeObjValue s.y people (pricing s.y) - s.yhat)]) ∧
      (fixAgents fixed s.y s.obj people).dom =
        fixed.dom ∪ people.toFinset.filter (fun p => EPS < s.y p ∧ p ∉ fixed.dom) ∧
      (∀ p, (fixAgents fixed s.y s.obj people).val p =
        if p ∈ people ∧ EPS < s.y p ∧ p ∉ fixed.dom then max 0 s.obj else fixed.val p)) ∧
    (¬ committeeObjValue s.y people (pricing s.y) ≤ s.yhat + EPS →
      pricing s.y ∉ committees ∧
      innerLoop pricing dualSolve people (fuel + 1) committees fixed red log =
        innerLoop pricing dualSolve people fuel (setAdd committees (pricing s.y)) fixed red
          (log ++ [LogEntry.maximin
            (s.obj - s.yhat + committeeObjValue s.y people (pricing s.y)) s.obj
            committees.length (committeeObjValue s.y people (pricing s.y) - s.yhat)])) := by
  have hmem : pricing s.y ∉ committees ∨ committeeObjValue s.y people (pricing s.y) ≤ s.yhat + EPS := by
    by_cases hm : pricing s.y ∈ committees
    · exact Or.inr (le_trans (hfeas _ hm) (by linarith [EPS_pos]))
    · exact Or.inl hm
  constructor
  · intro hcond
    refine ⟨?_, fixAgents_dom s.y s.obj people fixed, fun p => fixAgents_val s.y s.obj people fixed p⟩
    simp only [innerLoop]
    rw [if_neg hne, hopt]
    simp only [if_pos hcond]
  · intro hcond
    have hnm : pricing s.y ∉ committees := by
      rcases hmem with h | h
      · exact h
      · exact absurd h hcond
    refine ⟨hnm, ?_⟩
    simp only [innerLoop]
    rw [if_neg hne, hopt]
    simp only [if_neg hcond, if_neg hnm]

theorem leximin_inner_column_generation_witness :
    committeeObjValue (fun _ => (1 / 2 : ℚ)) [0, 1] ({0, 1} : Finset ℕ) ≤ 1 + EPS ∧
    (fixAgents fixedEmpty (fun _ => (1 / 2 : ℚ)) (1 / 2) [0, 1]).dom =
      fixedEmpty.dom ∪ ([0, 1] : List ℕ).toFinset.filter
        (fun p => EPS < (1 / 2 : ℚ) ∧ p ∉ fixedEmpty.dom) := by
  have hval : committeeObjValue (fun _ => (1 / 2 : ℚ)) [0, 1] ({0, 1} : Finset ℕ) = 1 := by
    norm_num [committeeObjValue, List.filter]
  have hcond : committeeObjValue (fun _ => (1 / 2 : ℚ)) [0, 1] ({0, 1} : Finset ℕ) ≤ 1 + EPS := by
    rw [hval]
    norm_num [EPS]
  have hfeas : ∀ P ∈ [({0, 1} : Finset ℕ)],
      committeeObjValue (fun _ => (1 / 2 : ℚ)) [0, 1] P ≤ (1 : ℚ) := by
    intro P hP
    rw [List.mem_singleton] at hP
    subst hP
    rw [hval]
  have happ := (leximin_inner_column_generation (fun _ => ({0, 1} : Finset ℕ))
    (fun _ _ => DualStatus.optimal ⟨fun _ => 1 / 2, 1, 1 / 2⟩) [0, 1] 1
    [({0, 1} : Finset ℕ)] fixedEmpty 0 [] ⟨fun _ => 1 / 2, 1, 1 / 2⟩
    (by simp) rfl hfeas).1 hcond
  exact ⟨hcond, happ.2.1⟩

theorem innerLoop_succ_term (pricing : (ℕ → ℚ) → Committee)
    (dualSolve : List Committee → Fixed → DualStatus) (people : List ℕ) (fuel : ℕ)
    (committees : List Committee) (fixed : Fixed) (red : ℕ) (log : List LogEntry) (s : DualSol)
    (hne : committees ≠ [])
    (hopt : dualSolve committees fixed = DualStatus.optimal s)
    (hterm : committeeObjValue s.y people (pricing s.y) ≤ s.yhat + EPS) :
    innerLoop pricing dualSolve people (fuel + 1) committees fixed red log =
      Except.ok (committees, fixAgents fixed s.y s.obj people, red,
        log ++ [LogEntry.maximin
          (s.obj - s.yhat + committeeObjValue s.y people (pricing s.y)) s.obj
          committees.length (committeeObjValue s.y people (pricing s.y) - s.yhat)]) := by
  simp only [innerLoop]
  rw [if_neg hne, hopt]
  simp only [if_pos hterm]

theorem yBig_le_EPS : ∀ p, ¬ EPS < yBig p := by
  intro p
  norm_num [yBig, EPS]

theorem peopleBig_sum : (peopleBig.map yBig).sum = 1 := by
  rw [show (peopleBig.map yBig) = List.replicate peopleBig.length (1 / 2001 : ℚ) from
    List.map_const' peopleBig (1 / 2001 : ℚ)]
  rw [List.sum_replicate]
  norm_num [peopleBig]

theorem filter_range_mem_zero : ∀ n : ℕ,
    (List.range (n + 1)).filter (fun p => p ∈ ({0} : Finset ℕ)) = [0]
  | 0 => by decide
  | n + 1 => by
    rw [List.range_succ, List.filter_append, filter_range_mem_zero n]
    simp

theorem committeeObjValue_big : committeeObjValue yBig peopleBig ({0} : Finset ℕ) = 1 / 2001 := by
  unfold committeeObjValue peopleBig
  rw [show (2001 : ℕ) = 2000 + 1 from rfl, filter_range_mem_zero 2000]
  simp [yBig]

theorem innerLoop_big_eval (red : ℕ) (log : List LogEntry) :
    innerLoop pricingZero dualBig peopleBig 1 committeesOne fixedEmpty red log =
      Except.ok (committeesOne, fixedEmpty, red,
        log ++ [LogEntry.maximin (1 / 2001) (1 / 2001) 1 0]) := by
  have heval := innerLoop_succ_term pricingZero dualBig peopleBig 0 committeesOne fixedEmpty red
    log ⟨yBig, 1 / 2001, 1 / 2001⟩ (by simp [committeesOne]) rfl
    (by rw [show pricingZero yBig = ({0} : Finset ℕ) from rfl, committeeObjValue_big]
        norm_num [EPS])
  rw [show pricingZero yBig = ({0} : Finset ℕ) from rfl] at heval
  rw [committeeObjValue_big] at heval
  rw [fixAgents_id _ _ _ _ (fun p _ => by
    intro hx
    exact yBig_le_EPS p hx.1)] at heval
  rw [heval]
  norm_num [committeesOne]

theorem outerLoop_big_stuck : ∀ (fuel red : ℕ) (log : List LogEntry),
    outerLoop pricingZero dualBig peopleBig 1 fuel committeesOne fixedEmpty red log =
      Except.error PyErr.fuelExhausted
  | 0, _, _ => rfl
  | fuel + 1, red, log => by
    simp only [outerLoop]
    rw [if_pos (by simp [fixedEmpty, peopleBig])]
    rw [innerLoop_big_eval red log]
    exact outerLoop_big_stuck fuel red (log ++ [LogEntry.maximin (1 / 2001) (1 / 2001) 1 0])

/-- C3 counterexample: on a pool of 2001 agents with the feasible
uniform dual solution 1/2001 (it satisfies the normalization constraint
and the committee constraint), the inner column generation terminates
without fixing any agent (no dual value exceeds EPS), and the outer loop
neither makes progress nor raises a solver error: it repeats unchanged
until fuel runs out. -/
theorem leximin_outer_no_progress_counterexample :
    (peopleBig.map yBig).sum = 1 ∧
    committeeObjValue yBig peopleBig ({0} : Finset ℕ) ≤ (1 / 2001 : ℚ) ∧
    innerLoop pricingZero dualBig peopleBig 1 committeesOne fixedEmpty 0 [] =
      Except.ok (committeesOne, fixedEmpty, 0, [LogEntry.maximin (1 / 2001) (1 / 2001) 1 0]) ∧
    fixedEmpty.dom.card = 0 ∧
    peopleBig.length = 2001 ∧
    outerLoop pricingZero dualBig peopleBig 1 100 committeesOne fixedEmpty 0 [] =
      Except.error PyErr.fuelExhausted := by
  refine ⟨peopleBig_sum, le_of_eq committeeObjValue_big, ?_, rfl, by simp [peopleBig],
    outerLoop_big_stuck 100 0 []⟩
  have h := innerLoop_big_eval 0 []
  rw [List.nil_append] at h
  exact h

/-- C3 amended: in an outer iteration whose inner column generation
terminates, at least one previously-unfixed agent is fixed provided some
not-yet-fixed agent has dual value above EPS in the final dual solution;
when no such agent exists, the code fixes nothing and raises no error:
the inner loop returns with the fixed probabilities unchanged and the
outer iteration repeats unchanged (no solver error is raised). -/
theorem leximin_outer_progress_amended
    (pricing : (ℕ → ℚ) → Committee) (dualSolve : List Committee → Fixed → DualStatus)
    (people : List ℕ) (fuel : ℕ) (committees : List Committee) (fixed : Fixed)
    (red : ℕ) (log : List LogEntry) (s : DualSol)
    (hne : committees ≠ [])
    (hopt : dualSolve committees fixed = DualStatus.optimal s)
    (hterm : committeeObjValue s.y people (pricing s.y) ≤ s.yhat + EPS) :
    ((∃ p ∈ people, EPS < s.y p ∧ p ∉ fixed.dom) →
      innerLoop pricing dualSolve people (fuel + 1) committees fixed red log =
        Except.ok (committees, fixAgents fixed s.y s.obj people, red,
          log ++ [LogEntry.maximin
            (s.obj - s.yhat + committeeObjValue s.y people (pricing s.y)) s.obj
            committees.length (committeeObjValue s.y people (pricing s.y) - s.yhat)]) ∧
      fixed.dom ⊂ (fixAgents fixed s.y s.obj people).dom) ∧
    ((∀ p ∈ people, ¬(EPS < s.y p ∧ p ∉ fixed.dom)) →
      innerLoop pricing dualSolve people (fuel + 1) committees fixed red log =
        Except.ok (committees, fixed, red,
          log ++ [LogEntry.maximin
            (s.obj - s.yhat + committeeObjValue s.y people (pricing s.y)) s.obj
            committees.length (committeeObjValue s.y people (pricing s.y) - s.yhat)])) := by
  constructor
  · rintro ⟨p, hp, hyp, hdom⟩
    refine ⟨innerLoop_succ_term pricing dualSolve people fuel committees fixed red log s hne
      hopt hterm, ?_⟩
    rw [fixAgents_dom]
    rw [Finset.ssubset_iff_of_subset Finset.subset_union_left]
    exact ⟨p, Finset.mem_union_right _ (Finset.mem_filter.mpr
      ⟨List.mem_toFinset.mpr hp, hyp, hdom⟩), hdom⟩
  · intro hall
    have h := innerLoop_succ_term pricing dualSolve people fuel committees fixed red log s hne
      hopt hterm
    rw [fixAgents_id s.y s.obj people fixed hall] at h
    exact h

theorem leximin_outer_progress_amended_witness :
    committeeObjValue (fun _ => (1 : ℚ)) [0] ({0} : Finset ℕ) ≤ 1 + EPS ∧
    fixedEmpty.dom ⊂ (fixAgents fixedEmpty (fun _ => (1 : ℚ)) 1 [0]).dom := by
  have hval : committeeObjValue (fun _ => (1 : ℚ)) [0] ({0} : Finset ℕ) = 1 := by
    norm_num [committeeObjValue, List.filter]
  have hterm : committeeObjValue (fun _ => (1 : ℚ)) [0] ({0} : Finset ℕ) ≤ 1 + EPS := by
    rw [hval]
    norm_num [EPS]
  have happ := (leximin_outer_progress_amended (fun _ => ({0} : Finset ℕ))
    (fun _ _ => DualStatus.optimal ⟨fun _ => 1, 1, 1⟩) [0] 1 [({0} : Finset ℕ)] fixedEmpty 0 []
    ⟨fun _ => 1, 1, 1⟩ (by simp) rfl hterm).1
    ⟨0, by simp, by norm_num [EPS], by simp [fixedEmpty]⟩
  exact ⟨hterm, happ.2⟩

theorem fmrc_inner_fold_eq (randint : ℕ → ℤ → ℤ → ℤ) (ck : String) :
    ∀ (vs : List (String × FeatureInfo)) (st : MaxRatioState),
      vs.foldlM (fun st2 w => fmrcStep randint st2 (ck, w.1, w.2)) st =
        (vs.map (fun w => (ck, w.1, w.2))).foldlM (fmrcStep randint) st := by
  intro vs
  induction vs with
  | nil => intro st; rfl
  | cons w rest ih =>
    intro st
    rw [List.map_cons, List.foldlM_cons, List.foldlM_cons]
    cases fmrcStep randint st (ck, w.1, w.2) with
    | error e => rfl
    | ok st2 => exact ih st2

theorem fmrc_fold_eq_flat (randint : ℕ → ℤ → ℤ → ℤ) :
    ∀ (categories : Categories) (st : MaxRatioState),
      categories.foldlM
        (fun st c => c.2.foldlM (fun st2 w => fmrcStep randint st2 (c.1, w.1, w.2)) st) st =
      (fmrc_flatten categories).foldlM (fmrcStep randint) st := by
  intro categories
  induction categories with
  | nil => intro st; rfl
  | cons c rest ih =>
    intro st
    rw [List.foldlM_cons]
    rw [show fmrc_flatten (c :: rest) =
      (c.2.map (fun w => (c.1, w.1, w.2))) ++ fmrc_flatten rest from rfl]
    rw [List.foldlM_append]
    rw [fmrc_inner_fold_eq randint c.1 c.2 st]
    cases (c.2.map (fun w => (c.1, w.1, w.2))).foldlM (fmrcStep randint) st with
    | error e => rfl
    | ok st2 => exact ih st2

theorem fmrcStep_fail1 (randint : ℕ → ℤ → ℤ → ℤ) (st : MaxRatioState)
    (e : String × String × FeatureInfo) (h : cond_fail1 e.2.2) :
    fmrcStep randint st e =
      Except.error (PyErr.selectionError (SelMsg.findMaxNotEnough e.2.1), st.rngCtr) := by
  unfold fmrcStep
  rw [if_pos h]

theorem fmrcStep_gt1 (randint : ℕ → ℤ → ℤ → ℤ) (st : MaxRatioState)
    (e : String × String × FeatureInfo) (h1 : ¬ cond_fail1 e.2.2) (h2 : eligibleFV e.2.2)
    (h3 : 1 < deficit_ratio e.2.2) :
    fmrcStep randint st e =
      Except.error (PyErr.selectionError SelMsg.findMaxRatioGtOne, st.rngCtr) := by
  unfold fmrcStep
  simp only [deficit_ratio] at h3
  rw [if_neg h1, if_pos h2, if_pos h3]

theorem fmrcStep_ok_no_offense (randint : ℕ → ℤ → ℤ → ℤ) (st : MaxRatioState)
    (e : String × String × FeatureInfo) (st2 : MaxRatioState)
    (h : fmrcStep randint st e = Except.ok st2) :
    ¬ cond_fail1 e.2.2 ∧ (eligibleFV e.2.2 → deficit_ratio e.2.2 ≤ 1) := by
  have h1 : ¬ cond_fail1 e.2.2 := by
    intro hc
    rw [fmrcStep_fail1 randint st e hc] at h
    exact Except.noConfusion h
  refine ⟨h1, ?_⟩
  intro helig
  by_contra hgt
  rw [not_le] at hgt
  rw [fmrcStep_gt1 randint st e h1 helig hgt] at h
  exact Except.noConfusion h

theorem fmrc_fold_error (randint : ℕ → ℤ → ℤ → ℤ) :
    ∀ (l : List (String × String × FeatureInfo)) (st : MaxRatioState),
      (∃ e ∈ l, cond_fail1 e.2.2 ∨ (eligibleFV e.2.2 ∧ 1 < deficit_ratio e.2.2)) →
      ∃ err, l.foldlM (fmrcStep randint) st = Except.error err := by
  intro l
  induction l with
  | nil =>
    intro st hex
    rcases hex with ⟨e, he, _⟩
    exact absurd he (List.not_mem_nil e)
  | cons x rest ih =>
    intro st hex
    rw [List.foldlM_cons]
    cases hstep : fmrcStep randint st x with
    | error err => exact ⟨err, rfl⟩
    | ok st2 =>
      have hx := fmrcStep_ok_no_offense randint st x st2 hstep
      rcases hex with ⟨e, he, hoff⟩
      rcases List.mem_cons.mp he with rfl | he2
      · rcases hoff with hoff | hoff
        · exact absurd hoff hx.1
        · exact absurd (hx.2 hoff.1) (not_le.mpr hoff.2)
      · exact ih st2 ⟨e, he2, hoff⟩

theorem fmrcStep_ok_update (randint : ℕ → ℤ → ℤ → ℤ) (st : MaxRatioState)
    (e : String × String × FeatureInfo) (h1 : ¬ cond_fail1 e.2.2) (h2 : eligibleFV e.2.2)
    (h3 : ¬ 1 < deficit_ratio e.2.2) (h4 : st.ratioAcc < deficit_ratio e.2.2) :
    fmrcStep randint st e = Except.ok
      ⟨deficit_ratio e.2.2, e.1, e.2.1, randint st.rngCtr 1 e.2.2.remaining, st.rngCtr + 1⟩ := by
  unfold fmrcStep
  simp only [deficit_ratio] at h3 h4
  rw [if_neg h1, if_pos h2, if_neg h3, if_pos h4]
  rw [deficit_ratio]

theorem fmrcStep_ok_keep_inel (randint : ℕ → ℤ → ℤ → ℤ) (st : MaxRatioState)
    (e : String × String × FeatureInfo) (h1 : ¬ cond_fail1 e.2.2) (h2 : ¬ eligibleFV e.2.2) :
    fmrcStep randint st e = Except.ok st := by
  unfold fmrcStep
  rw [if_neg h1, if_neg h2]

theorem fmrcStep_ok_keep_le (randint : ℕ → ℤ → ℤ → ℤ) (st : MaxRatioState)
    (e : String × String × FeatureInfo) (h1 : ¬ cond_fail1 e.2.2) (h2 : eligibleFV e.2.2)
    (h3 : ¬ 1 < deficit_ratio e.2.2) (h4 : ¬ st.ratioAcc < deficit_ratio e.2.2) :
    fmrcStep randint st e = Except.ok st := by
  unfold fmrcStep
  simp only [deficit_ratio] at h3 h4
  rw [if_neg h1, if_pos h2, if_neg h3, if_neg h4]

theorem FirstMaxEligible.le_all {l : List (String × String × FeatureInfo)} {k v : String}
    {r : ℚ} (h : FirstMaxEligible l k v r) :
    ∀ e2 ∈ l, eligibleFV e2.2.2 → deficit_ratio e2.2.2 ≤ r := by
  obtain ⟨l1, e, l2, rfl, _, _, _, hr, hlt, hle⟩ := h
  intro e2 he2 helig
  rcases List.mem_append.mp he2 with hm | hm
  · exact le_of_lt (hlt e2 hm helig)
  · rcases List.mem_cons.mp hm with rfl | hm2
    · exact le_of_eq hr
    · exact hle e2 hm2 helig

theorem FirstMaxEligible.extend {l : List (String × String × FeatureInfo)} {k v : String}
    {r : ℚ} (h : FirstMaxEligible l k v r) (x : String × String × FeatureInfo)
    (hx : eligibleFV x.2.2 → deficit_ratio x.2.2 ≤ r) :
    FirstMaxEligible (l ++ [x]) k v r := by
  obtain ⟨l1, e, l2, rfl, h1, h2, h3, h4, h5, h6⟩ := h
  refine ⟨l1, e, l2 ++ [x], by simp, h1, h2, h3, h4, h5, ?_⟩
  intro e2 he2 helig
  rcases List.mem_append.mp he2 with hm | hm
  · exact h6 e2 hm helig
  · rw [List.mem_singleton] at hm
    subst hm
    exact hx helig

theorem fmrcInv_extend {pre : List (String × String × FeatureInfo)} {st : MaxRatioState}
    (h : fmrcInv pre st) (x : String × String × FeatureInfo)
    (hx : eligibleFV x.2.2 → deficit_ratio x.2.2 ≤ st.ratioAcc) :
    fmrcInv (pre ++ [x]) st := by
  rcases h with ⟨h1, h2, h3, h4⟩ | ⟨h1, h2⟩
  · left
    refine ⟨h1, h2, h3, ?_⟩
    intro e he helig
    rcases List.mem_append.mp he with hm | hm
    · exact h4 e hm helig
    · rw [List.mem_singleton] at hm
      subst hm
      have hy := hx helig
      rw [h1] at hy
      exact hy
  · exact Or.inr ⟨h1, h2.extend x hx⟩

theorem fmrcInv_update {pre : List (String × String × FeatureInfo)} {st : MaxRatioState}
    (h : fmrcInv pre st) (x : String × String × FeatureInfo) (randv : ℤ) (ctr2 : ℕ)
    (helig : eligibleFV x.2.2) (hlt : st.ratioAcc < deficit_ratio x.2.2) :
    fmrcInv (pre ++ [x]) ⟨deficit_ratio x.2.2, x.1, x.2.1, randv, ctr2⟩ := by
  have hacc : (-100 : ℚ) ≤ st.ratioAcc := by
    rcases h with ⟨h1, _⟩ | ⟨h1, _⟩
    · exact le_of_eq h1.symm
    · exact le_of_lt h1
  right
  refine ⟨lt_of_le_of_lt hacc hlt, pre, x, [], by simp, rfl, rfl, helig, rfl, ?_, by simp⟩
  intro e2 he2 helig2
  rcases h with ⟨h1, _, _, h4⟩ | ⟨h1, h2⟩
  · calc deficit_ratio e2.2.2 ≤ -100 := h4 e2 he2 helig2
      _ ≤ st.ratioAcc := hacc
      _ < deficit_ratio x.2.2 := hlt
  · exact lt_of_le_of_lt (h2.le_all e2 he2 helig2) hlt

theorem fmrc_fold_inv (randint : ℕ → ℤ → ℤ → ℤ) :
    ∀ (l pre : List (String × String × FeatureInfo)) (st : MaxRatioState),
      (∀ e ∈ l, ¬ cond_fail1 e.2.2) →
      (∀ e ∈ l, eligibleFV e.2.2 → deficit_ratio e.2.2 ≤ 1) →
      fmrcInv pre st →
      ∃ st2, l.foldlM (fmrcStep randint) st = Except.ok st2 ∧ fmrcInv (pre ++ l) st2 := by
  intro l
  induction l with
  | nil =>
    intro pre st _ _ hinv
    exact ⟨st, rfl, by simpa using hinv⟩
  | cons x rest ih =>
    intro pre st hnf hng hinv
    have hnf_x := hnf x (List.mem_cons_self x rest)
    have hng_x := hng x (List.mem_cons_self x rest)
    have hnf_rest : ∀ e ∈ rest, ¬ cond_fail1 e.2.2 :=
      fun e he => hnf e (List.mem_cons_of_mem x he)
    have hng_rest : ∀ e ∈ rest, eligibleFV e.2.2 → deficit_ratio e.2.2 ≤ 1 :=
      fun e he => hng e (List.mem_cons_of_mem x he)
    rw [List.foldlM_cons]
    by_cases helig : eligibleFV x.2.2
    · by_cases hlt : st.ratioAcc < deficit_ratio x.2.2
      · rw [fmrcStep_ok_update randint st x hnf_x helig (not_lt.mpr (hng_x helig)) hlt]
        obtain ⟨st2, hfold, hinv2⟩ := ih (pre ++ [x])
          ⟨deficit_ratio x.2.2, x.1, x.2.1, randint st.rngCtr 1 x.2.2.remaining, st.rngCtr + 1⟩
          hnf_rest hng_rest
          (fmrcInv_update hinv x (randint st.rngCtr 1 x.2.2.remaining) (st.rngCtr + 1) helig hlt)
        refine ⟨st2, hfold, ?_⟩
        rw [List.append_cons]
        exact hinv2
      · rw [fmrcStep_ok_keep_le randint st x hnf_x helig (not_lt.mpr (hng_x helig)) hlt]
        obtain ⟨st2, hfold, hinv2⟩ := ih (pre ++ [x]) st hnf_rest hng_rest
          (fmrcInv_extend hinv x (fun _ => not_lt.mp hlt))
        refine ⟨st2, hfold, ?_⟩
        rw [List.append_cons]
        exact hinv2
    · rw [fmrcStep_ok_keep_inel randint st x hnf_x helig]
      obtain ⟨st2, hfold, hinv2⟩ := ih (pre ++ [x]) st hnf_rest hng_rest
        (fmrcInv_extend hinv x (fun he => absurd he helig))
      refine ⟨st2, hfold, ?_⟩
      rw [List.append_cons]
      exact hinv2

/-- C6 counterexample: in the quota state catsSentinel the single
feature value ("c", "a") is eligible (remaining 1, max 200), no failure
condition holds and its deficit ratio (min 0, selected 100, remaining 1,
hence -100) is at most 1, yet find_max_ratio_cat returns the sentinel
empty result without selecting it: the eligible feature value with the
largest deficit ratio is not selected, because the strict comparison
against the -100.0 initialization never fires. -/
theorem find_max_ratio_sentinel_counterexample :
    find_max_ratio_cat rngOne catsSentinel 0 =
      Except.ok (⟨"", "", -1⟩, 0) ∧
    fmrc_flatten catsSentinel = [("c", "a", ⟨0, 200, 100, 1⟩)] ∧
    eligibleFV (⟨0, 200, 100, 1⟩ : FeatureInfo) ∧
    ¬ cond_fail1 (⟨0, 200, 100, 1⟩ : FeatureInfo) ∧
    deficit_ratio (⟨0, 200, 100, 1⟩ : FeatureInfo) ≤ 1 ∧
    ("" : String) ≠ "c" := by
  refine ⟨?_, rfl, by decide, by decide, by norm_num [deficit_ratio], by decide⟩
  have hstep : fmrcStep rngOne (⟨-100, "", "", -1, 0⟩ : MaxRatioState) ("c", "a", ⟨0, 200, 100, 1⟩) =
      Except.ok (⟨-100, "", "", -1, 0⟩ : MaxRatioState) := by
    apply fmrcStep_ok_keep_le
    · decide
    · decide
    · norm_num [deficit_ratio]
    · norm_num [deficit_ratio]
  unfold find_max_ratio_cat
  rw [fmrc_fold_eq_flat]
  rw [show fmrc_flatten catsSentinel = [("c", "a", ⟨0, 200, 100, 1⟩)] from rfl]
  rw [List.foldlM_cons]
  rw [hstep]
  rfl

/-- C6 amended: a SelectionError is raised whenever some feature value
has `selected < min` with `remaining < min - selected`, or an eligible
feature value has deficit ratio above 1; and, provided additionally that
the largest eligible deficit ratio exceeds the internal sentinel -100,
the feature value selected is the first-seen (in iteration order over
categories and features) eligible feature value of maximal deficit
ratio. (When every eligible ratio is at most -100, nothing is selected
and the empty sentinel result is returned, as the counterexample
shows.) -/
theorem find_max_ratio_selection_amended (randint : ℕ → ℤ → ℤ → ℤ) (categories : Categories)
    (ctr0 : ℕ) :
    ((∃ e ∈ fmrc_flatten categories,
        cond_fail1 e.2.2 ∨ (eligibleFV e.2.2 ∧ 1 < deficit_ratio e.2.2)) →
      ∃ err, find_max_ratio_cat randint categories ctr0 = Except.error err) ∧
    ((∀ e ∈ fmrc_flatten categories, ¬ cond_fail1 e.2.2) →
     (∀ e ∈ fmrc_flatten categories, eligibleFV e.2.2 → deficit_ratio e.2.2 ≤ 1) →
     (∃ e ∈ fmrc_flatten categories, eligibleFV e.2.2 ∧ -100 < deficit_ratio e.2.2) →
      ∃ r ctr1 rmax, find_max_ratio_cat randint categories ctr0 = Except.ok (r, ctr1) ∧
        FirstMaxEligible (fmrc_flatten categories) r.ratio_cat r.ratio_cat_val rmax) := by
  constructor
  · intro hex
    obtain ⟨err, herr⟩ := fmrc_fold_error randint (fmrc_flatten categories)
      (⟨-100, "", "", -1, ctr0⟩ : MaxRatioState) hex
    refine ⟨err, ?_⟩
    unfold find_max_ratio_cat
    rw [fmrc_fold_eq_flat, herr]
    rfl
  · intro hnf hng hsome
    have hinv0 : fmrcInv [] (⟨-100, "", "", -1, ctr0⟩ : MaxRatioState) :=
      Or.inl ⟨rfl, rfl, rfl, by simp⟩
    obtain ⟨st2, hfold, hinv⟩ :=
      fmrc_fold_inv randint (fmrc_flatten categories) [] _ hnf hng hinv0
    rw [List.nil_append] at hinv
    rcases hinv with ⟨_, _, _, hall⟩ | ⟨_, hfm⟩
    · obtain ⟨e, he, helig, hgt⟩ := hsome
      exact absurd (hall e he helig) (not_le.mpr hgt)
    · refine ⟨⟨st2.key_max, st2.index_max_name, st2.random_person_num⟩, st2.rngCtr,
        st2.ratioAcc, ?_, hfm⟩
      unfold find_max_ratio_cat
      rw [fmrc_fold_eq_flat, hfold]
      rfl

theorem find_max_ratio_selection_amended_witness :
    (∃ e ∈ fmrc_flatten catsTwo, eligibleFV e.2.2 ∧ -100 < deficit_ratio e.2.2) ∧
    (∃ r ctr1 rmax, find_max_ratio_cat rngOne catsTwo 0 = Except.ok (r, ctr1) ∧
      FirstMaxEligible (fmrc_flatten catsTwo) r.ratio_cat r.ratio_cat_val rmax) := by
  have hlist : fmrc_flatten catsTwo =
      [("g", "f", ⟨1, 2, 0, 2⟩), ("g", "m", ⟨0, 1, 0, 1⟩)] := rfl
  have hnf : ∀ e ∈ fmrc_flatten catsTwo, ¬ cond_fail1 e.2.2 := by
    rw [hlist]
    intro e he
    rcases List.mem_cons.mp he with rfl | he2
    · decide
    · rcases List.mem_cons.mp he2 with rfl | he3
      · decide
      · exact absurd he3 (List.not_mem_nil e)
  have hng : ∀ e ∈ fmrc_flatten catsTwo, eligibleFV e.2.2 → deficit_ratio e.2.2 ≤ 1 := by
    rw [hlist]
    intro e he
    rcases List.mem_cons.mp he with rfl | he2
    · intro _; norm_num [deficit_ratio]
    · rcases List.mem_cons.mp he2 with rfl | he3
      · intro _; norm_num [deficit_ratio]
      · exact absurd he3 (List.not_mem_nil e)
  have hsome : ∃ e ∈ fmrc_flatten catsTwo, eligibleFV e.2.2 ∧ -100 < deficit_ratio e.2.2 := by
    refine ⟨("g", "f", ⟨1, 2, 0, 2⟩), ?_, by decide, by norm_num [deficit_ratio]⟩
    rw [hlist]
    exact List.mem_cons_self _ _
  exact ⟨hsome, (find_max_ratio_selection_amended rngOne catsTwo 0).2 hnf hng hsome⟩

/-- C9 counterexample: with k = 0 the LEGACY sampler returns an empty
selection without raising, legacy_find succeeds on its first attempt
with the empty panel (the quota minima of catsTiny are all 0), and
legacy_probabilities returns the all-zero allocation with the empty
panel as the only panel seen — k = 0 is not rejected by any of them. -/
theorem legacy_k_zero_counterexample :
    find_random_sample_legacy rngOne catsTiny peopleTiny [] 0 false [] 0 =
      Except.ok ⟨catsTiny, peopleTiny, [], [LogEntry.usingLegacy], 0⟩ ∧
    legacy_find rngOne catsTiny peopleTiny 0 1 0 = Except.ok ([], 0) ∧
    legacy_probabilities rngOne ⟨0, catsTiny, peopleTiny⟩ 1 1 =
      Except.ok ([(0, ((0 : ℕ) : ℚ) / ((1 : ℕ) : ℚ))], {([] : List ℕ)},
        PairHistogram.turn_into_probabilities (PairHistogram.init 1 false) ((1 : ℕ) : ℚ)) ∧
    ((0 : ℕ) : ℚ) / ((1 : ℕ) : ℚ) = 0 := by
  refine ⟨rfl, rfl, rfl, by norm_num⟩

/-- C9 amended: k = 0 is not rejected: for every input state, invoking
the LEGACY sampler with number_people_wanted = 0 performs no selection
round and returns an empty selection successfully (no error is
raised). -/
theorem legacy_k_zero_amended (randint : ℕ → ℤ → ℤ → ℤ) (categories : Categories)
    (people : People) (columns_data : List (ℕ × PersonRec)) (check_same_address : Bool)
    (cols : List String) (ctr0 : ℕ) :
    find_random_sample_legacy randint categories people columns_data 0 check_same_address
      cols ctr0 = Except.ok ⟨categories, people, [], [LogEntry.usingLegacy], ctr0⟩ := rfl

theorem getPanelAux_calls (legacyFind : ℕ → Committee) (portfolioList : List Committee) :
    ∀ (t ctr : ℕ), (getPanelAux legacyFind portfolioList t ctr).2 ≤ ctr + t
  | 0, ctr => by simp [getPanelAux]
  | t + 1, ctr => by
    rw [getPanelAux]
    by_cases h : legacyFind ctr ∉ portfolioList
    · rw [if_pos h]
      omega
    · rw [if_neg h]
      have := getPanelAux_calls legacyFind portfolioList t (ctr + 1)
      omega

theorem xminLoopAux_count (O : SolverOracles) (legacyFind : ℕ → Committee)
    (categories : Categories) (people : People) (columns_data : List (ℕ × PersonRec))
    (number_people_wanted : ℕ) (chk : Bool) (cols : List String) (innerFuel outerFuel : ℕ) :
    ∀ (i : ℕ) (trip : List Committee × List ℚ × List LogEntry) (ctr : ℕ),
      (xminLoopAux O legacyFind categories people columns_data number_people_wanted chk cols
        innerFuel outerFuel i trip ctr).2 ≤ i
  | 0, trip, ctr => by simp [xminLoopAux]
  | i + 1, trip, ctr => by
    rw [xminLoopAux]
    rcases hgp : _get_panel_not_in_portfolio_if_possible legacyFind people number_people_wanted
      trip.1 ctr with ⟨popt, ctr2⟩
    cases popt with
    | none => simp
    | some new_panel =>
      dsimp only
      cases heng : _expand_distribution_leximin O categories people columns_data
          number_people_wanted chk cols (trip.1 ++ [new_panel]).dedup
          (updateCoveredAgents people (trip.1 ++ [new_panel]).dedup) innerFuel outerFuel with
      | error e => simp
      | ok trip2 =>
        have hrec := xminLoopAux_count O legacyFind categories people columns_data
          number_people_wanted chk cols innerFuel outerFuel i trip2 ctr2
        rcases hx : xminLoopAux O legacyFind categories people columns_data
          number_people_wanted chk cols innerFuel outerFuel i trip2 ctr2 with ⟨res, n⟩
        rw [hx] at hrec
        simp only [hx]
        omega

theorem xminLoopAux_stop (O : SolverOracles) (legacyFind : ℕ → Committee)
    (categories : Categories) (people : People) (columns_data : List (ℕ × PersonRec))
    (number_people_wanted : ℕ) (chk : Bool) (cols : List String) (innerFuel outerFuel : ℕ)
    (i ctr ctr2 : ℕ) (trip : List Committee × List ℚ × List LogEntry)
    (hnone : _get_panel_not_in_portfolio_if_possible legacyFind people number_people_wanted
      trip.1 ctr = (none, ctr2)) :
    xminLoopAux O legacyFind categories people columns_data number_people_wanted chk cols
      innerFuel outerFuel (i + 1) trip ctr = (Except.ok trip, 1) := by
  rw [xminLoopAux, hnone]

/-- C7: after the initial LEXIMIN run, the extension loop of
find_distribution_xmin runs at most `5 * |pool|` iterations (measured
by the ghost iteration counter); each iteration asks LEGACY for a novel
panel at most `3 * |pool|` times (the rng-counter advance bounds the
number of legacy_find calls); and when no attempt yields a panel outside
the current portfolio, the loop stops and the current
(portfolio, probabilities, log lines) triple is returned. -/
theorem xmin_extension_budgets (O : SolverOracles) (legacyFind : ℕ → Committee)
    (categories : Categories) (people : People) (columns_data : List (ℕ × PersonRec))
    (number_people_wanted : ℕ) (chk : Bool) (cols : List String)
    (mwRounds innerFuel outerFuel : ℕ) :
    (find_distribution_xmin O legacyFind categories people columns_data number_people_wanted
        chk cols mwRounds innerFuel outerFuel).2 ≤ people.length * 5 ∧
    (∀ (portfolioList : List Committee) (ctr : ℕ),
      (_get_panel_not_in_portfolio_if_possible legacyFind people number_people_wanted
        portfolioList ctr).2 ≤ ctr + people.length * 3) ∧
    (∀ (i ctr ctr2 : ℕ) (trip : List Committee × List ℚ × List LogEntry),
      _get_panel_not_in_portfolio_if_possible legacyFind people number_people_wanted
        trip.1 ctr = (none, ctr2) →
      xminLoopAux O legacyFind categories people columns_data number_people_wanted chk cols
        innerFuel outerFuel (i + 1) trip ctr = (Except.ok trip, 1)) := by
  refine ⟨?_, ?_, ?_⟩
  · unfold find_distribution_xmin
    cases find_distribution_leximin O categories people columns_data number_people_wanted chk
        cols mwRounds innerFuel outerFuel with
    | error e => simp
    | ok trip =>
      exact le_trans (xminLoopAux_count O legacyFind categories people columns_data
        number_people_wanted chk cols innerFuel outerFuel (people.length * 5) trip 0)
        (le_refl _)
  · intro portfolioList ctr
    exact getPanelAux_calls legacyFind portfolioList (people.length * 3) ctr
  · intro i ctr ctr2 trip hnone
    exact xminLoopAux_stop O legacyFind categories people columns_data number_people_wanted
      chk cols innerFuel outerFuel i ctr ctr2 trip hnone

theorem xmin_extension_budgets_witness :
    _get_panel_not_in_portfolio_if_possible legacyFindPair peopleTiny 2
      [({0, 1} : Finset ℕ)] 0 = (none, 3) ∧
    xminLoopAux oraclesPair legacyFindPair catsTiny peopleTiny [] 2 false [] 5 5 1
      ([({0, 1} : Finset ℕ)], [1], []) 0 =
      (Except.ok ([({0, 1} : Finset ℕ)], [1], []), 1) := by
  have h : _get_panel_not_in_portfolio_if_possible legacyFindPair peopleTiny 2
      [({0, 1} : Finset ℕ)] 0 = (none, 3) := rfl
  exact ⟨h, (xmin_extension_budgets oraclesPair legacyFindPair catsTiny peopleTiny [] 2 false []
    5 5 5).2.2 0 0 3 ([({0, 1} : Finset ℕ)], [1], []) h⟩

theorem clip01_nonneg (x : ℚ) : 0 ≤ clip01 x :=
  le_min (by norm_num) (le_max_left 0 x)

theorem clipped_sum_ge_one (raw : List ℚ) (hsum : raw.sum = 1) :
    1 ≤ (raw.map clip01).sum := by
  by_cases hbig : ∃ x ∈ raw, 1 < x
  · obtain ⟨x, hx, hgt⟩ := hbig
    have h1 : clip01 x = 1 := by
      rw [clip01, max_eq_right (by linarith), min_eq_left (by linarith)]
    have hmem : (1 : ℚ) ∈ raw.map clip01 := by
      rw [← h1]
      exact List.mem_map_of_mem clip01 hx
    exact List.single_le_sum (fun y hy => by
      obtain ⟨z, _, rfl⟩ := List.mem_map.mp hy
      exact clip01_nonneg z) 1 hmem
  · push_neg at hbig
    calc (1 : ℚ) = raw.sum := hsum.symm
      _ = (raw.map id).sum := by rw [List.map_id]
      _ ≤ (raw.map clip01).sum := by
        apply List.sum_le_sum
        intro i hi
        exact le_min (hbig i hi) (le_max_right 0 i)

theorem sum_map_div (l : List ℚ) (s : ℚ) : (l.map (fun p => p / s)).sum = l.sum / s := by
  induction l with
  | nil => simp
  | cons x rest ih => simp [ih, add_div]

theorem reconstruct_ok (primalSolve : List Committee → Fixed → Option (ℕ → ℚ))
    (committees : List Committee) (fixed : Fixed)
    (hps : ∀ (cl2 : List Committee) (f : Fixed) (xs : ℕ → ℚ), primalSolve cl2 f = some xs →
      ((List.range cl2.length).map xs).sum = 1)
    (hnd : committees.Nodup) (cl : List Committee) (probs : List ℚ)
    (hok : reconstructDistribution primalSolve committees fixed = Except.ok (cl, probs)) :
    GoodDistribution cl probs := by
  unfold reconstructDistribution at hok
  dsimp only at hok
  cases hsolve : primalSolve committees fixed with
  | none => rw [hsolve] at hok; exact Except.noConfusion hok
  | some xs =>
    rw [hsolve] at hok
    injection hok with hok
    have hcl : cl = committees := (congrArg Prod.fst hok).symm
    have hprobs : probs =
        (((List.range committees.length).map xs).map clip01).map
          (fun p => p / (((List.range committees.length).map xs).map clip01).sum) :=
      (congrArg Prod.snd hok).symm
    have hsum1 : ((List.range committees.length).map xs).sum = 1 :=
      hps committees fixed xs hsolve
    have hsge : 1 ≤ (((List.range committees.length).map xs).map clip01).sum :=
      clipped_sum_ge_one _ hsum1
    have hspos : (0 : ℚ) < (((List.range committees.length).map xs).map clip01).sum := by
      linarith
    subst hcl
    subst hprobs
    refine ⟨by simp, ?_, ?_, hnd⟩
    · intro q hq
      obtain ⟨z, hz, rfl⟩ := List.mem_map.mp hq
      obtain ⟨z2, _, rfl⟩ := List.mem_map.mp hz
      exact div_nonneg (clip01_nonneg z2) (le_of_lt hspos)
    · rw [sum_map_div, div_self (ne_of_gt hspos)]
      simp [EPS]
      norm_num

theorem setAdd_nodup {l : List Committee} {c : Committee} (h : l.Nodup) : (setAdd l c).Nodup := by
  unfold setAdd
  split_ifs with hmem
  · exact h
  · simp [List.nodup_append, h, hmem]

theorem innerLoop_nodup (pricing : (ℕ → ℚ) → Committee)
    (dualSolve : List Committee → Fixed → DualStatus) (people : List ℕ) :
    ∀ (fuel : ℕ) (committees : List Committee) (fixed : Fixed) (red : ℕ) (log : List LogEntry)
      (c2 : List Committee) (f2 : Fixed) (r2 : ℕ) (l2 : List LogEntry),
      committees.Nodup →
      innerLoop pricing dualSolve people fuel committees fixed red log =
        Except.ok (c2, f2, r2, l2) →
      c2.Nodup
  | 0, committees, fixed, red, log, c2, f2, r2, l2, hnd, heq => by
    exact Except.noConfusion heq
  | fuel + 1, committees, fixed, red, log, c2, f2, r2, l2, hnd, heq => by
    rw [innerLoop] at heq
    split_ifs at heq with hne
    cases hds : dualSolve committees fixed with
    | notOptimal =>
      rw [hds] at heq
      exact innerLoop_nodup pricing dualSolve people fuel committees (reduceFixed fixed)
        (red + 1) log c2 f2 r2 l2 hnd heq
    | optimal s =>
      rw [hds] at heq
      dsimp only at heq
      split_ifs at heq with hcond hmem
      · injection heq with heq
        have : c2 = committees := (congrArg (fun q => q.1) heq).symm
        rw [this]
        exact hnd
      · exact innerLoop_nodup pricing dualSolve people fuel (setAdd committees (pricing s.y))
          fixed red _ c2 f2 r2 l2 (setAdd_nodup hnd) heq

theorem outerLoop_nodup (pricing : (ℕ → ℚ) → Committee)
    (dualSolve : List Committee → Fixed → DualStatus) (people : List ℕ) (innerFuel : ℕ) :
    ∀ (fuel : ℕ) (committees : List Committee) (fixed : Fixed) (red : ℕ) (log : List LogEntry)
      (c2 : List Committee) (f2 : Fixed) (l2 : List LogEntry),
      committees.Nodup →
      outerLoop pricing dualSolve people innerFuel fuel committees fixed red log =
        Except.ok (c2, f2, l2) →
      c2.Nodup
  | 0, committees, fixed, red, log, c2, f2, l2, hnd, heq => by
    exact Except.noConfusion heq
  | fuel + 1, committees, fixed, red, log, c2, f2, l2, hnd, heq => by
    rw [outerLoop] at heq
    split_ifs at heq with hlt
    · cases hin : innerLoop pricing dualSolve people innerFuel committees fixed red log with
      | error e => rw [hin] at heq; exact Except.noConfusion heq
      | ok quad =>
        rw [hin] at heq
        rcases quad with ⟨ci, fi, ri, li⟩
        exact outerLoop_nodup pricing dualSolve people innerFuel fuel ci fi ri li c2 f2 l2
          (innerLoop_nodup pricing dualSolve people innerFuel committees fixed red log
            ci fi ri li hnd hin) heq
    · injection heq with heq
      have : c2 = committees := (congrArg (fun q => q.1) heq).symm
      rw [this]
      exact hnd

theorem foldl_preserves_nodupState {β : Type} (f : GenState → β → GenState)
    (hstep : ∀ a b, a.committees.Nodup → (f a b).committees.Nodup) :
    ∀ (l : List β) (a : GenState), a.committees.Nodup → (l.foldl f a).committees.Nodup := by
  intro l
  induction l with
  | nil => intro a h; exact h
  | cons x rest ih => intro a h; exact ih (f a x) (hstep a x h)

theorem coverage_foldl_nodup (ipOpt : (ℕ → ℚ) → Committee) :
    ∀ (l : List ℕ) (acc : List Committee × Finset ℕ × List LogEntry),
      acc.1.Nodup → (l.foldl (coverageStep ipOpt) acc).1.Nodup := by
  intro l
  induction l with
  | nil => intro acc h; exact h
  | cons x rest ih =>
    intro acc h
    apply ih
    unfold coverageStep
    dsimp only
    split_ifs
    all_goals first
    | exact h
    | exact setAdd_nodup h

theorem generate_initial_nodup (ipOpt : (ℕ → ℚ) → Committee) (people : List ℕ)
    (rounds : ℕ) (committees : List Committee) (covered : Finset ℕ) (lines : List LogEntry)
    (hok : _generate_initial_committees ipOpt people rounds =
      Except.ok (committees, covered, lines)) :
    committees.Nodup := by
  unfold _generate_initial_committees at hok
  have hmw : ((List.range rounds).foldl (fun st _ => mwRound ipOpt people st)
      (⟨fun _ => 1, [], ∅⟩ : GenState)).committees.Nodup := by
    apply foldl_preserves_nodupState
    · intro a b hnd
      unfold mwRound
      dsimp only
      split_ifs
      all_goals first
      | exact hnd
      | exact setAdd_nodup hnd
    · exact List.nodup_nil
  have hcov := coverage_foldl_nodup ipOpt people
    (((List.range rounds).foldl (fun st _ => mwRound ipOpt people st)
      (⟨fun _ => 1, [], ∅⟩ : GenState)).committees,
     ((List.range rounds).foldl (fun st _ => mwRound ipOpt people st)
      (⟨fun _ => 1, [], ∅⟩ : GenState)).covered_agents, []) hmw
  dsimp only at hok
  split_ifs at hok
  all_goals first
  | exact Except.noConfusion hok
  | (injection hok with hok2
     cases hok2
     exact hcov)

set_option maxHeartbeats 1000000 in
theorem expand_ok_good (O : SolverOracles) (categories : Categories) (people : People)
    (columns_data : List (ℕ × PersonRec)) (k : ℕ) (chk : Bool) (cols : List String)
    (init : List Committee) (cov : Finset ℕ) (innerFuel outerFuel : ℕ)
    (cl : List Committee) (probs : List ℚ) (lines : List LogEntry)
    (hps : ∀ (cl2 : List Committee) (f : Fixed) (xs : ℕ → ℚ), O.primalSolve cl2 f = some xs →
      ((List.range cl2.length).map xs).sum = 1)
    (hnd : init.Nodup)
    (hok : _expand_distribution_leximin O categories people columns_data k chk cols init cov
      innerFuel outerFuel = Except.ok (cl, probs, lines)) :
    GoodDistribution cl probs := by
  unfold _expand_distribution_leximin at hok
  dsimp only at hok
  cases hsetup : _setup_committee_generation categories people k chk
      (if chk then some (_compute_households people columns_data cols) else none)
      O.setupStatus O.relaxStatus O.deltaMin O.deltaMax with
  | error e => rw [hsetup] at hok; exact Except.noConfusion hok
  | ok u =>
    rw [hsetup] at hok
    cases hout : outerLoop O.pricing O.dualSolve (people.map (fun e => e.1)) innerFuel
        outerFuel init ⟨∅, fun _ => 0⟩ 0 [LogEntry.usingLeximin] with
    | error e => rw [hout] at hok; exact Except.noConfusion hok
    | ok trip =>
      rw [hout] at hok
      rcases trip with ⟨committees2, fixed2, lines2⟩
      dsimp only at hok
      cases hrec : reconstructDistribution O.primalSolve committees2 fixed2 with
      | error e => rw [hrec] at hok; exact Except.noConfusion hok
      | ok pair =>
        rw [hrec] at hok
        rcases pair with ⟨clB, probsB⟩
        injection hok with hok2
        have gd2 : GoodDistribution clB probsB :=
          reconstruct_ok O.primalSolve committees2 fixed2 hps
            (outerLoop_nodup O.pricing O.dualSolve (people.map (fun e => e.1)) innerFuel
              outerFuel init ⟨∅, fun _ => 0⟩ 0 [LogEntry.usingLeximin] committees2 fixed2
              lines2 hnd hout)
            clB probsB hrec
        have h1 : clB = cl := congrArg (fun t => t.1) hok2
        have h2 : probsB = probs := congrArg (fun t => t.2.1) hok2
        rw [← h1, ← h2]
        exact gd2

set_option maxHeartbeats 1000000 in
theorem leximin_ok_good (O : SolverOracles) (categories : Categories) (people : People)
    (columns_data : List (ℕ × PersonRec)) (k : ℕ) (chk : Bool) (cols : List String)
    (mwRounds innerFuel outerFuel : ℕ)
    (cl : List Committee) (probs : List ℚ) (lines : List LogEntry)
    (hps : ∀ (cl2 : List Committee) (f : Fixed) (xs : ℕ → ℚ), O.primalSolve cl2 f = some xs →
      ((List.range cl2.length).map xs).sum = 1)
    (hok : find_distribution_leximin O categories people columns_data k chk cols mwRounds
      innerFuel outerFuel = Except.ok (cl, probs, lines)) :
    GoodDistribution cl probs := by
  unfold find_distribution_leximin at hok
  dsimp only at hok
  cases hsetup : _setup_committee_generation categories people k chk
      (if chk then some (_compute_households people columns_data cols) else none)
      O.setupStatus O.relaxStatus O.deltaMin O.deltaMax with
  | error e => rw [hsetup] at hok; exact Except.noConfusion hok
  | ok u =>
    rw [hsetup] at hok
    cases hgen : _generate_initial_committees O.pricing (people.map (fun e => e.1)) mwRounds with
    | error e => rw [hgen] at hok; exact Except.noConfusion hok
    | ok trip =>
      rw [hgen] at hok
      rcases trip with ⟨committees0, covered0, glines0⟩
      dsimp only at hok
      have hndc : committees0.Nodup := generate_initial_nodup _ _ _ _ _ _ hgen
      exact expand_ok_good _ _ _ _ _ _ _ _ _ _ _ _ _ _ hps hndc hok

set_option maxHeartbeats 1000000 in
theorem xminLoop_good (O : SolverOracles) (legacyFind : ℕ → Committee)
    (categories : Categories) (people : People) (columns_data : List (ℕ × PersonRec))
    (k : ℕ) (chk : Bool) (cols : List String) (innerFuel outerFuel : ℕ)
    (hps : ∀ (cl2 : List Committee) (f : Fixed) (xs : ℕ → ℚ), O.primalSolve cl2 f = some xs →
      ((List.range cl2.length).map xs).sum = 1) :
    ∀ (i : ℕ) (trip : List Committee × List ℚ × List LogEntry) (ctr : ℕ)
      (cl : List Committee) (probs : List ℚ) (lines : List LogEntry),
      GoodDistribution trip.1 trip.2.1 →
      (xminLoopAux O legacyFind categories people columns_data k chk cols innerFuel outerFuel
        i trip ctr).1 = Except.ok (cl, probs, lines) →
      GoodDistribution cl probs
  | 0, trip, ctr, cl, probs, lines, hgood, heq => by
    simp only [xminLoopAux] at heq
    injection heq with heq2
    cases heq2
    exact hgood
  | i + 1, trip, ctr, cl, probs, lines, hgood, heq => by
    rw [xminLoopAux] at heq
    rcases hgp : _get_panel_not_in_portfolio_if_possible legacyFind people k trip.1 ctr with
      ⟨popt, ctr2⟩
    rw [hgp] at heq
    cases popt with
    | none =>
      dsimp only at heq
      injection heq with heq2
      cases heq2
      exact hgood
    | some new_panel =>
      dsimp only at heq
      cases heng : _expand_distribution_leximin O categories people columns_data k chk cols
          (trip.1 ++ [new_panel]).dedup
          (updateCoveredAgents people (trip.1 ++ [new_panel]).dedup) innerFuel outerFuel with
      | error e =>
        rw [heng] at heq
        exact Except.noConfusion heq
      | ok trip2 =>
        rw [heng] at heq
        dsimp only at heq
        rcases trip2 with ⟨clB, probsB, linesB⟩
        have hgood2 : GoodDistribution clB probsB :=
          expand_ok_good O categories people columns_data k chk cols
            (trip.1 ++ [new_panel]).dedup
            (updateCoveredAgents people (trip.1 ++ [new_panel]).dedup) innerFuel outerFuel
            clB probsB linesB hps (List.nodup_dedup _) heng
        exact xminLoop_good O legacyFind categories people columns_data k chk cols innerFuel
          outerFuel hps i (clB, probsB, linesB) ctr2 cl probs lines hgood2 heq

/-- C1: whenever the LEXIMIN engine (and hence find_distribution_xmin,
whose result is always an engine result or the initial LEXIMIN result)
returns, under the assumption that the final primal LP solver returns
solutions satisfying its sum-to-one constraint, the probabilities list
has the same length as the returned committee list, every probability is
non-negative, the probabilities sum to 1 within EPS, and the committees
in the returned portfolio are pairwise distinct. -/
theorem leximin_result_distribution (O : SolverOracles) (legacyFind : ℕ → Committee)
    (categories : Categories) (people : People) (columns_data : List (ℕ × PersonRec))
    (k : ℕ) (chk : Bool) (cols : List String) (mwRounds innerFuel outerFuel : ℕ)
    (hps : ∀ (cl2 : List Committee) (f : Fixed) (xs : ℕ → ℚ), O.primalSolve cl2 f = some xs →
      ((List.range cl2.length).map xs).sum = 1) :
    (∀ (init : List Committee) (cov : Finset ℕ) (cl : List Committee) (probs : List ℚ)
       (lines : List LogEntry), init.Nodup →
      _expand_distribution_leximin O categories people columns_data k chk cols init cov
        innerFuel outerFuel = Except.ok (cl, probs, lines) →
      GoodDistribution cl probs) ∧
    (∀ (cl : List Committee) (probs : List ℚ) (lines : List LogEntry),
      (find_distribution_xmin O legacyFind categories people columns_data k chk cols mwRounds
        innerFuel outerFuel).1 = Except.ok (cl, probs, lines) →
      GoodDistribution cl probs) := by
  constructor
  · intro init cov cl probs lines hnd hok
    exact expand_ok_good _ _ _ _ _ _ _ _ _ _ _ _ _ _ hps hnd hok
  · intro cl probs lines hok
    unfold find_distribution_xmin at hok
    cases hlex : find_distribution_leximin O categories people columns_data k chk cols
        mwRounds innerFuel outerFuel with
    | error e =>
      rw [hlex] at hok
      dsimp only at hok
      exact Except.noConfusion hok
    | ok trip =>
      rw [hlex] at hok
      rcases trip with ⟨clA, probsA, linesA⟩
      have hgoodA : GoodDistribution clA probsA :=
        leximin_ok_good _ _ _ _ _ _ _ _ _ _ _ _ _ hps hlex
      exact xminLoop_good _ _ _ _ _ _ _ _ _ _ hps (people.length * 5) (clA, probsA, linesA) 0
        cl probs lines hgoodA hok

theorem hpsPair : ∀ (cl2 : List Committee) (f : Fixed) (xs : ℕ → ℚ),
    oraclesPair.primalSolve cl2 f = some xs → ((List.range cl2.length).map xs).sum = 1 := by
  intro cl2 f xs h
  by_cases hl : cl2.length = 1
  · simp only [oraclesPair, if_pos hl] at h
    injection h with h
    rw [hl, ← h]
    simp
  · simp only [oraclesPair, if_neg hl] at h
    exact Option.noConfusion h

theorem fixAgentsPair_dom :
    (fixAgents fixedEmpty (fun _ => (1 / 2 : ℚ)) (1 / 2) [0, 1]).dom = {0, 1} := by
  rw [fixAgents_dom]
  rw [Finset.filter_true_of_mem (fun p _ => ⟨by norm_num [EPS], by simp [fixedEmpty]⟩)]
  simp [fixedEmpty]

theorem innerPair_eval (red : ℕ) (log : List LogEntry) :
    innerLoop oraclesPair.pricing oraclesPair.dualSolve [0, 1] 1 [({0, 1} : Finset ℕ)]
      fixedEmpty red log =
      Except.ok ([({0, 1} : Finset ℕ)],
        fixAgents fixedEmpty (fun _ => (1 / 2 : ℚ)) (1 / 2) [0, 1], red,
        log ++ [LogEntry.maximin (1 / 2) (1 / 2) 1 0]) := by
  have hval : committeeObjValue (fun _ => (1 / 2 : ℚ)) [0, 1] ({0, 1} : Finset ℕ) = 1 := by
    norm_num [committeeObjValue, List.filter]
  have heval := innerLoop_succ_term oraclesPair.pricing oraclesPair.dualSolve [0, 1] 0
    [({0, 1} : Finset ℕ)] fixedEmpty red log ⟨fun _ => 1 / 2, 1, 1 / 2⟩
    (by simp) rfl (by rw [show oraclesPair.pricing (fun _ => (1 / 2 : ℚ)) = ({0, 1} : Finset ℕ)
        from rfl, hval]; norm_num [EPS])
  rw [show oraclesPair.pricing (fun _ => (1 / 2 : ℚ)) = ({0, 1} : Finset ℕ) from rfl] at heval
  rw [hval] at heval
  rw [heval]
  norm_num

theorem outerLoop_exit (pricing : (ℕ → ℚ) → Committee)
    (dualSolve : List Committee → Fixed → DualStatus) (people : List ℕ)
    (innerFuel fuel : ℕ) (committees : List Committee) (fixed : Fixed) (red : ℕ)
    (log : List LogEntry) (h : ¬ fixed.dom.card < people.length) :
    outerLoop pricing dualSolve people innerFuel (fuel + 1) committees fixed red log =
      Except.ok (committees, fixed, log) := by
  rw [outerLoop, if_neg h]

theorem outerPair_eval :
    outerLoop oraclesPair.pricing oraclesPair.dualSolve [0, 1] 1 2 [({0, 1} : Finset ℕ)]
      fixedEmpty 0 [LogEntry.usingLeximin] =
      Except.ok ([({0, 1} : Finset ℕ)],
        fixAgents fixedEmpty (fun _ => (1 / 2 : ℚ)) (1 / 2) [0, 1],
        [LogEntry.usingLeximin, LogEntry.maximin (1 / 2) (1 / 2) 1 0]) := by
  rw [show (2 : ℕ) = 1 + 1 from rfl, outerLoop]
  rw [if_pos (by simp [fixedEmpty])]
  rw [innerPair_eval 0 [LogEntry.usingLeximin]]
  exact outerLoop_exit oraclesPair.pricing oraclesPair.dualSolve [0, 1] 1 0 _ _ 0 _
    (by rw [fixAgentsPair_dom]; simp)

theorem reconstructPair_eval :
    reconstructDistribution oraclesPair.primalSolve [({0, 1} : Finset ℕ)]
      (fixAgents fixedEmpty (fun _ => (1 / 2 : ℚ)) (1 / 2) [0, 1]) =
      Except.ok ([({0, 1} : Finset ℕ)], [1]) := by
  unfold reconstructDistribution
  dsimp only
  rw [show oraclesPair.primalSolve [({0, 1} : Finset ℕ)]
      (fixAgents fixedEmpty (fun _ => (1 / 2 : ℚ)) (1 / 2) [0, 1]) =
      some (fun _ => (1 : ℚ)) from rfl]
  have hclip : clip01 1 = 1 := by
    rw [clip01, max_eq_right (by norm_num), min_self]
  simp [hclip]

theorem expandPair_eval :
    _expand_distribution_leximin oraclesPair catsTiny peoplePair [] 2 false []
      [({0, 1} : Finset ℕ)] ∅ 1 2 =
      Except.ok ([({0, 1} : Finset ℕ)], [1],
        [LogEntry.usingLeximin, LogEntry.maximin (1 / 2) (1 / 2) 1 0]) := by
  unfold _expand_distribution_leximin
  dsimp only
  rw [if_neg (by decide : ¬ ((false : Bool) = true))]
  rw [show _setup_committee_generation catsTiny peoplePair 2 false none
      oraclesPair.setupStatus oraclesPair.relaxStatus oraclesPair.deltaMin oraclesPair.deltaMax =
      Except.ok () from rfl]
  rw [show (peoplePair.map (fun e => e.1)) = [0, 1] from rfl]
  rw [show (⟨∅, fun _ => 0⟩ : Fixed) = fixedEmpty from rfl]
  rw [outerPair_eval]
  dsimp only
  rw [reconstructPair_eval]

theorem leximin_result_distribution_witness :
    _expand_distribution_leximin oraclesPair catsTiny peoplePair [] 2 false []
      [({0, 1} : Finset ℕ)] ∅ 1 2 =
      Except.ok ([({0, 1} : Finset ℕ)], [1],
        [LogEntry.usingLeximin, LogEntry.maximin (1 / 2) (1 / 2) 1 0]) ∧
    GoodDistribution [({0, 1} : Finset ℕ)] [1] := by
  refine ⟨expandPair_eval, ?_⟩
  exact (leximin_result_distribution oraclesPair legacyFindPair catsTiny peoplePair [] 2 false
    [] 5 1 2 hpsPair).1 [({0, 1} : Finset ℕ)] ∅ [({0, 1} : Finset ℕ)] [1]
    [LogEntry.usingLeximin, LogEntry.maximin (1 / 2) (1 / 2) 1 0] (by simp) expandPair_eval
